import Mathlib

/-!
# Detective Quest: clue tree, suspect table and exploration loop

A shallow embedding of `algoritmos_avancados.c`.

* C strings are modelled by their contents: the list of bytes that precede the
  terminating NUL, each byte read as `unsigned char` (so `1 ≤ b ≤ 255`).
* A pointer to a heap node is modelled by the value it points to; `NULL` is the
  constructor `nulo` (trees) or the empty list (chains).
* `malloc` is assumed to succeed (the `exit(1)` branches are not modelled).
* `strcpy` into a field `char x[N]` is modelled for strings of fewer than `N` bytes, which it
  stores as they are. A longer string overruns the field in the source; the definitions do not
  describe that, and the theorems on `inserirPista` and `inserirNaHash` as such carry the bound
  as a hypothesis.
-/

namespace DetectiveQuest

set_option maxRecDepth 100000

/-! ## Strings -/

/-- A non-NUL byte of a C string, as its `unsigned char` value. -/
abbrev CChar := { n : Nat // 0 < n ∧ n < 256 }

/-- The contents of a NUL-terminated C string. -/
abbrev CStr := List CChar

/-- Literal helper: the bytes of an ASCII string literal (other characters are dropped). -/
def cstr (s : String) : CStr :=
  s.toList.filterMap fun ch =>
    if h : 0 < ch.toNat ∧ ch.toNat < 128 then some ⟨ch.toNat, h.1, by omega⟩ else none

/-- The table size `TAM_HASH`. -/
def TAM_HASH : Nat := 10

/-- The size `PISTA_MAX` of the fields `char pista[PISTA_MAX]`. -/
def PISTA_MAX : Nat := 50

/-- The size `SUSPEITO_MAX` of the fields `char suspeito[SUSPEITO_MAX]`. -/
def SUSPEITO_MAX : Nat := 50

/-- The library function `strcmp`: the difference of the first two bytes that differ, each read
as `unsigned char`, the terminating NUL counting as `0`; `0` when the strings are equal.
Only the sign of the result is used by the program. -/
def strcmp : CStr → CStr → Int
  | [], [] => 0
  | [], b :: _ => 0 - (b.val : Int)
  | a :: _, [] => (a.val : Int) - 0
  | a :: s1, b :: s2 => if a.val = b.val then strcmp s1 s2 else (a.val : Int) - (b.val : Int)

/-- The library function `strlen`. -/
def strlen (s : CStr) : Nat := s.length

/-! ## Clue tree (`PistaNode`) -/

/-- A `PistaNode*`: `NULL` or a node with its clue and two children. -/
inductive PistaNode where
  | nulo : PistaNode
  | node (pista : CStr) (esquerda direita : PistaNode) : PistaNode
  deriving DecidableEq

/-- `inserirPista(raiz, pista)`: the returned root, for a clue that fits the field
`char pista[PISTA_MAX]` of a node (`strlen pista < PISTA_MAX`), which `strcpy` then stores as
it is. -/
def inserirPista : PistaNode → CStr → PistaNode
  | .nulo, pista => .node pista .nulo .nulo
  | .node p esquerda direita, pista =>
    let cmp := strcmp pista p
    if cmp < 0 then .node p (inserirPista esquerda pista) direita
    else if cmp > 0 then .node p esquerda (inserirPista direita pista)
    else .node p esquerda direita

/-- `mostrarPistasEmOrdem(raiz)`: the clues in the order they are printed. -/
def mostrarPistasEmOrdem : PistaNode → List CStr
  | .nulo => []
  | .node p esquerda direita => mostrarPistasEmOrdem esquerda ++ p :: mostrarPistasEmOrdem direita

/-- Number of nodes of a clue tree. -/
def PistaNode.tamanho : PistaNode → Nat
  | .nulo => 0
  | .node _ esquerda direita => esquerda.tamanho + 1 + direita.tamanho

/-- The clue tree after a sequence of `inserirPista` calls, starting from `NULL`. -/
def inserirPistas (pistas : List CStr) : PistaNode :=
  pistas.foldl inserirPista .nulo

/-- Byte-wise lexicographic order on strings. -/
def lexLt : CStr → CStr → Prop := List.Lex (fun a b : CChar => a.val < b.val)

/-- Byte-wise lexicographic order, non-strict. -/
def lexLe (a b : CStr) : Prop := a = b ∨ lexLt a b

instance lexLtDecidable : DecidableRel lexLt := fun a b =>
  inferInstanceAs (Decidable (List.Lex (fun x y : CChar => x.val < y.val) a b))

instance lexLeDecidable : DecidableRel lexLe := fun a b =>
  inferInstanceAs (Decidable (a = b ∨ lexLt a b))

/-- The search-tree ordering: at every node the clues of the left subtree are smaller than the
clue of the node and those of the right subtree are greater. -/
def ordenada : PistaNode → Prop
  | .nulo => True
  | .node p esquerda direita =>
    ordenada esquerda ∧ ordenada direita ∧
      (∀ x ∈ mostrarPistasEmOrdem esquerda, lexLt x p) ∧
      (∀ x ∈ mostrarPistasEmOrdem direita, lexLt p x)

/-! ## Suspect table (`HashNode`) -/

/-- A node of a collision chain, without its `proximo` pointer: a chain is the list of its nodes,
head first. -/
structure HashNode where
  pista : CStr
  suspeito : CStr
  deriving DecidableEq

/-- The array `HashNode* tabela[]`: one chain per slot. -/
abbrev Tabela := List (List HashNode)

/-- The chain `tabela[i]`; the program reads it for `i < TAM_HASH` only. -/
def balde (tabela : Tabela) (i : Nat) : List HashNode := tabela.getD i []

/-- The value `int c` receives in `c = *str++`. Whether plain `char` is signed is
implementation-defined: `charSigned` says so (it is on x86 with gcc and clang). -/
def charParaInt (charSigned : Bool) (c : CChar) : Int :=
  if charSigned = true ∧ 128 ≤ c.val then (c.val : Int) - 256 else (c.val : Int)

/-- The `while` loop of `funcaoHash`: `hash += c` on a 64-bit `unsigned long`. -/
def funcaoHashLaco (charSigned : Bool) : CStr → Nat → Nat
  | [], hash => hash
  | c :: str, hash =>
    funcaoHashLaco charSigned str (((hash : Int) + charParaInt charSigned c) % 2 ^ 64).toNat

/-- `funcaoHash(str)`. -/
def funcaoHash (charSigned : Bool) (str : CStr) : Nat :=
  funcaoHashLaco charSigned str 0 % TAM_HASH

/-- The sum of the byte values of a string. -/
def somaCodigos (str : CStr) : Nat := (str.map fun c => c.val).sum

/-- The array after `inicializarTabelaHash(tabela)`: `TAM_HASH` slots, all `NULL`. -/
def inicializarTabelaHash : Tabela := List.replicate TAM_HASH []

/-- The array after `inserirNaHash(tabela, pista, suspeito)`, for a clue and a suspect that fit
the fields `char pista[PISTA_MAX]` and `char suspeito[SUSPEITO_MAX]` of a node
(`strlen pista < PISTA_MAX` and `strlen suspeito < SUSPEITO_MAX`), which `strcpy` then stores as
they are. -/
def inserirNaHash (charSigned : Bool) (tabela : Tabela) (pista suspeito : CStr) : Tabela :=
  let indice := funcaoHash charSigned pista
  let novoNode : HashNode := ⟨pista, suspeito⟩
  tabela.set indice (novoNode :: balde tabela indice)

/-- The table after a sequence of `inserirNaHash` calls on a freshly initialised table. -/
def inserirTodos (charSigned : Bool) (pares : List (CStr × CStr)) : Tabela :=
  pares.foldl (fun t par => inserirNaHash charSigned t par.1 par.2) inicializarTabelaHash

/-- `mostrarAssociacoes(tabela)`: the entries in the order they are printed, each with the slot
index under which it is printed. -/
def mostrarAssociacoes (tabela : Tabela) : List (Nat × HashNode) :=
  (List.range TAM_HASH).flatMap fun i => (balde tabela i).map fun atual => (i, atual)

/-- An element of the array `contadores` of `encontrarCulpado`. The `int` counter is a natural
number here: it only grows from 1 by steps of 1, once per table entry. -/
structure ContadorSuspeito where
  nome : CStr
  contagem : Nat
  deriving DecidableEq

/-- The inner `for (j ...)` loop of `encontrarCulpado`: the first counter whose name equals
`suspeito` is incremented; the second component is the flag `encontrado`. -/
def procurarSuspeito : List ContadorSuspeito → CStr → List ContadorSuspeito × Bool
  | [], _ => ([], false)
  | c :: resto, suspeito =>
    if strcmp c.nome suspeito = 0 then (⟨c.nome, c.contagem + 1⟩ :: resto, true)
    else ((c :: (procurarSuspeito resto suspeito).1), (procurarSuspeito resto suspeito).2)

/-- The body of the `while (atual != NULL)` loop of `encontrarCulpado`. The list holds
`contadores[0 .. numSuspeitosUnicos - 1]`. -/
def contarNode (contadores : List ContadorSuspeito) (atual : HashNode) : List ContadorSuspeito :=
  let r := procurarSuspeito contadores atual.suspeito
  if r.2 = false ∧ r.1.length < 20 then r.1 ++ [⟨atual.suspeito, 1⟩] else r.1

/-- The counting loops of `encontrarCulpado`: slots `0 .. TAM_HASH - 1`, each chain head first. -/
def contarTabela (tabela : Tabela) : List ContadorSuspeito :=
  (List.range TAM_HASH).foldl (fun contadores i => (balde tabela i).foldl contarNode contadores) []

/-- The last loop of `encontrarCulpado`, from `i = 1`: the pair is `(culpado, maxContagem)`. -/
def maiorContagem (resto : List ContadorSuspeito) (inicial : CStr × Nat) : CStr × Nat :=
  resto.foldl (fun r c => if c.contagem > r.2 then (c.nome, c.contagem) else r) inicial

/-- `encontrarCulpado(tabela)`: `none` for the message that no clue was linked to a suspect,
otherwise the suspect and the count printed in the verdict. -/
def encontrarCulpado (tabela : Tabela) : Option (CStr × Nat) :=
  match contarTabela tabela with
  | [] => none
  | c0 :: resto => some (maiorContagem resto (c0.nome, c0.contagem))

/-- The entries of a table, slots in index order and each chain head first. -/
def entradas (tabela : Tabela) : List HashNode :=
  (List.range TAM_HASH).flatMap (balde tabela)

/-- The suspects of the entries of a table, in enumeration order. -/
def suspeitos (tabela : Tabela) : List CStr := (entradas tabela).map HashNode.suspeito

/-- The number of entries of a table whose suspect is `s`. -/
def citacoes (tabela : Tabela) (s : CStr) : Nat :=
  (entradas tabela).countP fun e => e.suspeito = s

/-- In the list `l`, the first occurrence of `a` comes before every occurrence of `b`. -/
def primeiroAntes (l : List CStr) (a b : CStr) : Prop :=
  ∃ l1 l2 : List CStr, l = l1 ++ a :: l2 ∧ a ∉ l1 ∧ b ∉ l1

/-- The counters after one more citation of `x`. -/
def citar (x : CStr) (c : ContadorSuspeito) : ContadorSuspeito :=
  if c.nome = x then ⟨c.nome, c.contagem + 1⟩ else c

/-- What the array `contadores` holds once the suspects `P` have been counted: distinct names, each
with its exact number of citations, at most 20 of them, nobody left out while there is room, in
the order of first citation. -/
structure TalhaOk (P : List CStr) (T : List ContadorSuspeito) : Prop where
  nodup : (T.map ContadorSuspeito.nome).Nodup
  conta : ∀ c ∈ T, c.contagem = P.countP (fun y => y = c.nome) ∧ c.nome ∈ P
  cabe : T.length ≤ 20
  todos : T.length < 20 → ∀ x ∈ P, x ∈ T.map ContadorSuspeito.nome
  ordem : (T.map ContadorSuspeito.nome).Pairwise (primeiroAntes P)

/-- A ledger with 21 distinct suspects: 22 clues, two of them (`pista08` and `pista17`, both in
slot 9) pointing to `Zeca`, every other clue to a suspect of its own. -/
def vinteEDois : List (CStr × CStr) :=
  [
    (cstr "pista01", cstr "S01"), (cstr "pista02", cstr "S02"), (cstr "pista03", cstr "S03"),
    (cstr "pista04", cstr "S04"), (cstr "pista05", cstr "S05"), (cstr "pista06", cstr "S06"),
    (cstr "pista07", cstr "S07"), (cstr "pista08", cstr "Zeca"), (cstr "pista09", cstr "S09"),
    (cstr "pista10", cstr "S10"), (cstr "pista11", cstr "S11"), (cstr "pista12", cstr "S12"),
    (cstr "pista13", cstr "S13"), (cstr "pista14", cstr "S14"), (cstr "pista15", cstr "S15"),
    (cstr "pista16", cstr "S16"), (cstr "pista17", cstr "Zeca"), (cstr "pista18", cstr "S18"),
    (cstr "pista19", cstr "S19"), (cstr "pista20", cstr "S20"), (cstr "pista21", cstr "S21"),
    (cstr "pista22", cstr "S22")]

/-- The three insertions of the Cook, Cook, Butler example, for clues `c1`, `c2`, `c3`. -/
def tresPares (c1 c2 c3 : CStr) : List (CStr × CStr) :=
  [(c1, cstr "Cook"), (c2, cstr "Cook"), (c3, cstr "Butler")]

/-! ## Mansion (`Sala`) and exploration loop -/

/-- A `Sala*`: `NULL` or a room. A mansion is a tree: no room is the child of two rooms. -/
inductive Sala where
  | nulo : Sala
  | sala (nome : CStr) (esquerda direita : Sala) (pistaEncontrada suspeitoAssociado : CStr) : Sala
  deriving DecidableEq

/-- Whether a `Sala*` is `NULL`. -/
def Sala.nula : Sala → Bool
  | .nulo => true
  | .sala _ _ _ _ _ => false

/-- A child pointer of a room. -/
inductive Lado where
  | esquerda : Lado
  | direita : Lado
  deriving DecidableEq

/-- The pointer reached from a room by following child pointers (`NULL` past a `NULL`). -/
def Sala.em : Sala → List Lado → Sala
  | s, [] => s
  | .nulo, _ :: _ => .nulo
  | .sala _ e _ _ _, .esquerda :: c => e.em c
  | .sala _ _ d _ _, .direita :: c => d.em c

/-- The field `pistaEncontrada` of the room at a position (empty when there is no room). -/
def Sala.pistaEm (raiz : Sala) (c : List Lado) : CStr :=
  match raiz.em c with
  | .nulo => []
  | .sala _ _ _ pista _ => pista

/-- The mansion after `strcpy(r->pistaEncontrada, "")` for the room `r` at a position. -/
def Sala.limparPista : Sala → List Lado → Sala
  | .nulo, _ => .nulo
  | .sala n e d _ s, [] => .sala n e d [] s
  | .sala n e d p s, .esquerda :: c => .sala n (e.limparPista c) d p s
  | .sala n e d p s, .direita :: c => .sala n e (d.limparPista c) p s

/-- The state of `iniciarExploracao` at the top of the `while (1)` loop. The pointer `salaAtual`
is the position of the room it points to, as the child pointers followed from `raizMansao`. -/
structure Sessao where
  mansao : Sala
  salaAtual : List Lado
  raizPistas : PistaNode
  tabelaHash : Tabela
  entrada : List Char
  encerrada : Bool
  deriving DecidableEq

/-- The character `scanf(" %c", &escolha)` stores and the input left after it: white space is
skipped first. `none` when no character is available. -/
def lerEscolha : List Char → Option (Char × List Char)
  | [] => none
  | ch :: resto =>
    if ch = ' ' ∨ ch = '\t' ∨ ch = '\n' ∨ ch = '\r' ∨ ch.toNat = 11 ∨ ch.toNat = 12
    then lerEscolha resto else some (ch, resto)

/-- The clue block of the loop body (`if (strlen(salaAtual->pistaEncontrada) > 0) ...`). -/
def encontrarPista (charSigned : Bool) (s : Sessao) : Sessao :=
  match s.mansao.em s.salaAtual with
  | .nulo => s
  | .sala _ _ _ pista suspeito =>
    if strlen pista > 0 then
      { s with
        raizPistas := inserirPista s.raizPistas pista
        tabelaHash :=
          if strlen suspeito > 0 then inserirNaHash charSigned s.tabelaHash pista suspeito
          else s.tabelaHash
        mansao := s.mansao.limparPista s.salaAtual }
    else s

/-- The rest of the loop body: the dead-end rule, then one command. While no character is
available the session waits at the read, which leaves the state as it is. -/
def navegar (s : Sessao) : Sessao :=
  match s.mansao.em s.salaAtual with
  | .nulo => s
  | .sala _ e d _ _ =>
    if e.nula = true ∧ d.nula = true then { s with salaAtual := [] }
    else
      match lerEscolha s.entrada with
      | none => s
      | some (escolha, resto) =>
        if escolha = 's' then { s with entrada := resto, encerrada := true }
        else if escolha = 'e' then
          if e.nula = false then { s with entrada := resto, salaAtual := s.salaAtual ++ [.esquerda] }
          else { s with entrada := resto }
        else if escolha = 'd' then
          if d.nula = false then { s with entrada := resto, salaAtual := s.salaAtual ++ [.direita] }
          else { s with entrada := resto }
        else { s with entrada := resto }

/-- One iteration of the `while (1)` loop; after `break` the state no longer changes. -/
def iteracao (charSigned : Bool) (s : Sessao) : Sessao :=
  if s.encerrada = true then s else navegar (encontrarPista charSigned s)

/-- The state after `n` iterations of the loop. -/
def iterar (charSigned : Bool) : Nat → Sessao → Sessao
  | 0, s => s
  | n + 1, s => iterar charSigned n (iteracao charSigned s)

/-- The state `iniciarExploracao` starts from. -/
def sessaoInicial (raizMansao : Sala) (raizPistas : PistaNode) (tabelaHash : Tabela)
    (entrada : List Char) : Sessao :=
  ⟨raizMansao, [], raizPistas, tabelaHash, entrada, false⟩

/-- The mansion built in `main`. -/
def mansaoPrincipal : Sala :=
  let salaJantar := Sala.sala (cstr "Sala de Jantar") .nulo .nulo
    (cstr "Faca de Prata") (cstr "Cozinheiro")
  let biblioteca := Sala.sala (cstr "Biblioteca") .nulo .nulo
    (cstr "Carta Amassada") (cstr "Mordomo")
  let jardim := Sala.sala (cstr "Jardim de Inverno") .nulo .nulo
    (cstr "Terra Molhada") (cstr "Jardineiro")
  let varanda := Sala.sala (cstr "Varanda") .nulo .nulo
    (cstr "Pegada de Bota") (cstr "Jardineiro")
  let cozinha := Sala.sala (cstr "Cozinha") salaJantar .nulo
    (cstr "Garrafa de Veneno") (cstr "Cozinheiro")
  let escritorio := Sala.sala (cstr "Escritorio") biblioteca cozinha [] []
  let salaMusica := Sala.sala (cstr "Sala de Musica") jardim varanda
    (cstr "Corda de Piano Arrebentada") (cstr "Mordomo")
  Sala.sala (cstr "Hall de Entrada") escritorio salaMusica [] []

/-- The state `main` hands to `iniciarExploracao`, for a given input. -/
def sessaoPrincipal (entrada : List Char) : Sessao :=
  sessaoInicial mansaoPrincipal .nulo inicializarTabelaHash entrada

/-- The index `j` at which the inner `for` loop of `encontrarCulpado` finds `suspeito`, if it
does. -/
def indiceSuspeito : List ContadorSuspeito → CStr → Option Nat
  | [], _ => none
  | c :: resto, suspeito =>
    if strcmp c.nome suspeito = 0 then some 0
    else (indiceSuspeito resto suspeito).map fun j => j + 1

/-- The index of `contadores` that the body of the `while` loop writes for the entry `atual`:
that of the counter found, else `numSuspeitosUnicos` when it is below 20, else none. -/
def indiceEscrito (contadores : List ContadorSuspeito) (atual : HashNode) : Option Nat :=
  match indiceSuspeito contadores atual.suspeito with
  | some j => some j
  | none => if contadores.length < 20 then some contadores.length else none

/-- The field `suspeitoAssociado` of the room at a position (empty when there is no room). -/
def Sala.suspeitoEm (raiz : Sala) (c : List Lado) : CStr :=
  match raiz.em c with
  | .nulo => []
  | .sala _ _ _ _ suspeito => suspeito

/-- The position of the room whose clue the next iteration collects, if any: the current room,
when the session has not ended and the clue of the room is not empty. -/
def coletaEm (s : Sessao) : List (List Lado) :=
  if s.encerrada = false ∧ strlen (s.mansao.pistaEm s.salaAtual) > 0 then [s.salaAtual] else []

/-- The positions of the rooms whose clue is collected during `n` iterations from the state `s`,
in the order of collection. -/
def historico (charSigned : Bool) : Nat → Sessao → List (List Lado)
  | 0, _ => []
  | n + 1, s => coletaEm s ++ historico charSigned n (iteracao charSigned s)

/-- The pair that `inserirNaHash` receives when the clue of the room at `c` is collected. -/
def parEm (raiz : Sala) (c : List Lado) : CStr × CStr := (raiz.pistaEm c, raiz.suspeitoEm c)

/-- The pairs collected along a list of positions that go to the ledger: those with a
suspect. -/
def paresDe (raiz : Sala) (h : List (List Lado)) : List (CStr × CStr) :=
  (h.map (parEm raiz)).filter fun par => strlen par.2 > 0

/-- The clues listed by `mostrarPistasEmOrdem` after `n` iterations of the session of `main`. -/
def caderno (charSigned : Bool) (entrada : List Char) (n : Nat) : List CStr :=
  mostrarPistasEmOrdem (iterar charSigned n (sessaoPrincipal entrada)).raizPistas

/-- The positions of the six rooms of `main` that hold a clue: `Sala de Jantar`, `Biblioteca`,
`Jardim de Inverno`, `Varanda`, `Cozinha`, `Sala de Musica`. -/
def seisCaminhos : List (List Lado) :=
  [[.esquerda, .direita, .esquerda], [.esquerda, .esquerda], [.direita, .esquerda],
    [.direita, .direita], [.esquerda, .direita], [.direita]]

/-- The six clues of `main`, in the order of `seisCaminhos`. -/
def seisPistas : List CStr :=
  [cstr "Faca de Prata", cstr "Carta Amassada", cstr "Terra Molhada", cstr "Pegada de Bota",
    cstr "Garrafa de Veneno", cstr "Corda de Piano Arrebentada"]

/-- The clue and suspect of `Sala de Jantar`. -/
def parFaca : CStr × CStr := (cstr "Faca de Prata", cstr "Cozinheiro")

/-- The clue and suspect of `Sala de Musica`. -/
def parCorda : CStr × CStr := (cstr "Corda de Piano Arrebentada", cstr "Mordomo")

/-- The six pairs of clue and suspect of `main`, in the order of `seisCaminhos`. -/
def seisPares : List (CStr × CStr) :=
  [parFaca, (cstr "Carta Amassada", cstr "Mordomo"), (cstr "Terra Molhada", cstr "Jardineiro"),
    (cstr "Pegada de Bota", cstr "Jardineiro"), (cstr "Garrafa de Veneno", cstr "Cozinheiro"),
    parCorda]

/-- An input that visits `Sala de Musica` first and `Sala de Jantar` last, then quits. -/
def entradaCordaAntes : List Char := ['d', 'e', 'd', 'd', 'e', 'e', 'e', 'd', 'e', 's']

/-- An input that visits `Sala de Jantar` first and `Sala de Musica` later, then quits. -/
def entradaFacaAntes : List Char := ['e', 'd', 'e', 'e', 'e', 'd', 'e', 'd', 'd', 's']

/-! ## Properties of `strcmp` -/

theorem strcmp_swap (a b : CStr) : strcmp b a = - strcmp a b := by
  induction a generalizing b with
  | nil => cases b <;> simp [strcmp]
  | cons x a ih =>
    cases b with
    | nil => simp [strcmp]
    | cons y b =>
      simp only [strcmp]
      by_cases h : x.val = y.val
      · simp [h, ih]
      · have h2 : ¬ y.val = x.val := fun e => h e.symm
        simp [h, h2]

theorem strcmp_eq_zero_iff (a b : CStr) : strcmp a b = 0 ↔ a = b := by
  induction a generalizing b with
  | nil =>
    cases b with
    | nil => simp [strcmp]
    | cons y b => have := y.property.1; simp [strcmp]; omega
  | cons x a ih =>
    cases b with
    | nil => have := x.property.1; simp [strcmp]; omega
    | cons y b =>
      simp only [strcmp]
      by_cases h : x.val = y.val
      · have hxy : x = y := Subtype.ext h
        simp [h, ih, hxy]
      · have hxy : x ≠ y := fun e => h (congrArg Subtype.val e)
        simp [h, hxy]; omega

theorem strcmp_neg_iff_lex (a b : CStr) : strcmp a b < 0 ↔ lexLt a b := by
  unfold lexLt
  induction a generalizing b with
  | nil =>
    cases b with
    | nil => simp [strcmp]
    | cons y b => have := y.property.1; simpa [strcmp, List.Lex.nil] using this
  | cons x a ih =>
    cases b with
    | nil => have := x.property.1; simp [strcmp]
    | cons y b =>
      simp only [strcmp]
      by_cases h : x.val = y.val
      · have hxy : x = y := Subtype.ext h
        subst hxy
        simp [ih, List.Lex.cons_iff]
      · have hxy : x ≠ y := fun e => h (congrArg Subtype.val e)
        simp only [h, if_false]
        constructor
        · intro hlt
          exact List.Lex.rel (by omega)
        · intro hl
          cases hl with
          | cons _ => exact absurd rfl h
          | rel hr => omega

theorem strcmp_trans {a b c : CStr} (h1 : strcmp a b < 0) (h2 : strcmp b c < 0) :
    strcmp a c < 0 := by
  induction a generalizing b c with
  | nil =>
    cases b with
    | nil => simp [strcmp] at h1
    | cons y b =>
      cases c with
      | nil => have := y.property.1; simp [strcmp] at h2; omega
      | cons z c => have := z.property.1; simpa [strcmp] using this
  | cons x a ih =>
    cases b with
    | nil => have := x.property.1; simp [strcmp] at h1; omega
    | cons y b =>
      cases c with
      | nil => have := y.property.1; simp [strcmp] at h2; omega
      | cons z c =>
        simp only [strcmp] at h1 h2 ⊢
        by_cases hxy : x.val = y.val
        · by_cases hyz : y.val = z.val
          · rw [if_pos hxy] at h1
            rw [if_pos hyz] at h2
            rw [if_pos (hxy.trans hyz)]
            exact ih h1 h2
          · rw [if_neg hyz] at h2
            rw [if_neg (by omega)]
            omega
        · rw [if_neg hxy] at h1
          by_cases hyz : y.val = z.val
          · rw [if_neg (by omega)]
            omega
          · rw [if_neg hyz] at h2
            rw [if_neg (by omega)]
            omega

theorem strcmp_self (a : CStr) : strcmp a a = 0 := (strcmp_eq_zero_iff a a).2 rfl

theorem strcmp_pos_iff (a b : CStr) : 0 < strcmp a b ↔ strcmp b a < 0 := by
  rw [strcmp_swap b a]; omega

theorem lexLt_trans {a b c : CStr} (h1 : lexLt a b) (h2 : lexLt b c) : lexLt a c :=
  (strcmp_neg_iff_lex a c).1
    (strcmp_trans ((strcmp_neg_iff_lex a b).2 h1) ((strcmp_neg_iff_lex b c).2 h2))

theorem lexLt_irrefl (a : CStr) : ¬ lexLt a a := by
  intro h
  have := (strcmp_neg_iff_lex a a).2 h
  rw [strcmp_self] at this
  omega

theorem lexLt_ne {a b : CStr} (h : lexLt a b) : a ≠ b := by
  rintro rfl
  exact lexLt_irrefl a h

theorem lexLt_asymm {a b : CStr} (h : lexLt a b) : ¬ lexLt b a :=
  fun h2 => lexLt_irrefl a (lexLt_trans h h2)

/-! ## The clue tree -/

theorem mem_inserirPista (t : PistaNode) (c x : CStr) :
    x ∈ mostrarPistasEmOrdem (inserirPista t c) ↔ x = c ∨ x ∈ mostrarPistasEmOrdem t := by
  induction t with
  | nulo => simp [inserirPista, mostrarPistasEmOrdem]
  | node p e d ihe ihd =>
    simp only [inserirPista]
    split_ifs with h1 h2
    · simp only [mostrarPistasEmOrdem, List.mem_append, List.mem_cons, ihe]
      tauto
    · simp only [mostrarPistasEmOrdem, List.mem_append, List.mem_cons, ihd]
      tauto
    · have h0 : strcmp c p = 0 := by omega
      have hcp : c = p := (strcmp_eq_zero_iff c p).1 h0
      subst hcp
      simp only [mostrarPistasEmOrdem, List.mem_append, List.mem_cons]
      tauto

theorem ordenada_inserirPista (t : PistaNode) (c : CStr) (h : ordenada t) :
    ordenada (inserirPista t c) := by
  induction t with
  | nulo => simp [inserirPista, ordenada, mostrarPistasEmOrdem]
  | node p e d ihe ihd =>
    obtain ⟨he, hd, hl, hr⟩ := h
    simp only [inserirPista]
    split_ifs with h1 h2
    · refine ⟨ihe he, hd, ?_, hr⟩
      intro x hx
      rcases (mem_inserirPista e c x).1 hx with rfl | hx
      · exact (strcmp_neg_iff_lex _ _).1 h1
      · exact hl x hx
    · refine ⟨he, ihd hd, hl, ?_⟩
      intro x hx
      rcases (mem_inserirPista d c x).1 hx with rfl | hx
      · exact (strcmp_neg_iff_lex _ _).1 ((strcmp_pos_iff _ _).1 h2)
      · exact hr x hx
    · exact ⟨he, hd, hl, hr⟩

theorem ordenada_inserirPistas_aux (pistas : List CStr) (t : PistaNode) (h : ordenada t) :
    ordenada (pistas.foldl inserirPista t) := by
  induction pistas generalizing t with
  | nil => exact h
  | cons c cs ih => exact ih _ (ordenada_inserirPista t c h)

theorem ordenada_inserirPistas (pistas : List CStr) : ordenada (inserirPistas pistas) :=
  ordenada_inserirPistas_aux pistas .nulo trivial

theorem mem_foldl_inserirPista (pistas : List CStr) (t : PistaNode) (x : CStr) :
    x ∈ mostrarPistasEmOrdem (pistas.foldl inserirPista t) ↔
      x ∈ pistas ∨ x ∈ mostrarPistasEmOrdem t := by
  induction pistas generalizing t with
  | nil => simp
  | cons c cs ih =>
    simp only [List.foldl_cons, ih, mem_inserirPista, List.mem_cons]
    tauto

theorem mem_inserirPistas (pistas : List CStr) (x : CStr) :
    x ∈ mostrarPistasEmOrdem (inserirPistas pistas) ↔ x ∈ pistas := by
  simp [inserirPistas, mem_foldl_inserirPista, mostrarPistasEmOrdem]

theorem sorted_of_ordenada (t : PistaNode) (h : ordenada t) :
    List.Sorted lexLt (mostrarPistasEmOrdem t) := by
  induction t with
  | nulo => simp [mostrarPistasEmOrdem]
  | node p e d ihe ihd =>
    obtain ⟨he, hd, hl, hr⟩ := h
    simp only [mostrarPistasEmOrdem, List.Sorted, List.pairwise_append, List.pairwise_cons,
      List.mem_cons]
    refine ⟨ihe he, ⟨hr, ihd hd⟩, ?_⟩
    intro a ha b hb
    rcases hb with rfl | hb
    · exact hl a ha
    · exact lexLt_trans (hl a ha) (hr b hb)

theorem inserirPista_of_mem (t : PistaNode) (c : CStr) (h : ordenada t)
    (hc : c ∈ mostrarPistasEmOrdem t) : inserirPista t c = t := by
  induction t with
  | nulo => simp [mostrarPistasEmOrdem] at hc
  | node p e d ihe ihd =>
    obtain ⟨he, hd, hl, hr⟩ := h
    simp only [mostrarPistasEmOrdem, List.mem_append, List.mem_cons] at hc
    simp only [inserirPista]
    split_ifs with h1 h2
    · have hlt : lexLt c p := (strcmp_neg_iff_lex _ _).1 h1
      rcases hc with hc | rfl | hc
      · rw [ihe he hc]
      · exact absurd hlt (lexLt_irrefl _)
      · exact absurd hlt (lexLt_asymm (hr c hc))
    · have hgt : lexLt p c := (strcmp_neg_iff_lex _ _).1 ((strcmp_pos_iff _ _).1 h2)
      rcases hc with hc | rfl | hc
      · exact absurd hgt (lexLt_asymm (hl c hc))
      · exact absurd hgt (lexLt_irrefl _)
      · rw [ihd hd hc]
    · rfl

theorem lexLe_total (a b : CStr) : lexLe a b ∨ lexLe b a := by
  rcases lt_trichotomy (strcmp a b) 0 with h | h | h
  · exact Or.inl (Or.inr ((strcmp_neg_iff_lex a b).1 h))
  · exact Or.inl (Or.inl ((strcmp_eq_zero_iff a b).1 h))
  · exact Or.inr (Or.inr ((strcmp_neg_iff_lex b a).1 ((strcmp_pos_iff a b).1 h)))

theorem lexLe_trans {a b c : CStr} (h1 : lexLe a b) (h2 : lexLe b c) : lexLe a c := by
  rcases h1 with rfl | h1
  · exact h2
  · rcases h2 with rfl | h2
    · exact Or.inr h1
    · exact Or.inr (lexLt_trans h1 h2)

theorem lexLe_antisymm {a b : CStr} (h1 : lexLe a b) (h2 : lexLe b a) : a = b := by
  rcases h1 with rfl | h1
  · rfl
  · rcases h2 with rfl | h2
    · rfl
    · exact absurd h2 (lexLt_asymm h1)

/-- C1: whatever clues that fit the clue field (fewer than `PISTA_MAX` bytes each) are inserted
with `inserirPista` into the empty tree, the in-order traversal is strictly ascending in
byte-wise lexicographic order, has no duplicates, holds exactly the inserted strings, and is the
sorted list of the distinct inserted strings; every clue listed fits the clue field. -/
theorem emOrdem_inserirPistas (pistas : List CStr)
    (hcabe : ∀ p ∈ pistas, strlen p < PISTA_MAX) :
    List.Sorted lexLt (mostrarPistasEmOrdem (inserirPistas pistas)) ∧
    (mostrarPistasEmOrdem (inserirPistas pistas)).Nodup ∧
    (∀ x, x ∈ mostrarPistasEmOrdem (inserirPistas pistas) ↔ x ∈ pistas) ∧
    mostrarPistasEmOrdem (inserirPistas pistas) = List.insertionSort lexLe pistas.dedup ∧
    ∀ x ∈ mostrarPistasEmOrdem (inserirPistas pistas), strlen x < PISTA_MAX := by
  have hs : List.Sorted lexLt (mostrarPistasEmOrdem (inserirPistas pistas)) :=
    sorted_of_ordenada _ (ordenada_inserirPistas pistas)
  have hn : (mostrarPistasEmOrdem (inserirPistas pistas)).Nodup :=
    List.Pairwise.imp (fun h => lexLt_ne h) hs
  refine ⟨hs, hn, mem_inserirPistas pistas, ?_,
    fun x hx => hcabe x ((mem_inserirPistas pistas x).1 hx)⟩
  haveI : IsAntisymm CStr lexLe := ⟨fun _ _ h1 h2 => lexLe_antisymm h1 h2⟩
  haveI : IsTotal CStr lexLe := ⟨lexLe_total⟩
  haveI : IsTrans CStr lexLe := ⟨fun _ _ _ h1 h2 => lexLe_trans h1 h2⟩
  refine @List.eq_of_perm_of_sorted _ lexLe _ _ _ ?_ (List.Pairwise.imp Or.inr hs)
    (List.sorted_insertionSort lexLe _)
  refine List.Perm.trans ?_ (List.perm_insertionSort lexLe _).symm
  refine (List.perm_ext_iff_of_nodup hn (List.nodup_dedup pistas)).2 ?_
  intro x
  rw [mem_inserirPistas, List.mem_dedup]

/-- Witness for C1: four insertions, one of them repeated, of clues of `main`. -/
theorem emOrdem_inserirPistas_witness :
    (∀ p ∈ [cstr "Pegada de Bota", cstr "Faca de Prata", cstr "Pegada de Bota",
      cstr "Carta Amassada"], strlen p < PISTA_MAX) ∧
    mostrarPistasEmOrdem (inserirPistas [cstr "Pegada de Bota", cstr "Faca de Prata",
      cstr "Pegada de Bota", cstr "Carta Amassada"]) =
      [cstr "Carta Amassada", cstr "Faca de Prata", cstr "Pegada de Bota"] :=
  ⟨by decide,
    (emOrdem_inserirPistas [cstr "Pegada de Bota", cstr "Faca de Prata", cstr "Pegada de Bota",
      cstr "Carta Amassada"] (by decide)).2.2.2.1.trans (by decide)⟩

/-- C2: on a tree built by inserting clues that fit the clue field (fewer than `PISTA_MAX` bytes
each), inserting a clue that was already inserted returns the tree as it is, so the number of
nodes does not change; inserting a clue that fits twice in a row is the same as inserting it
once. -/
theorem inserirPista_repetida (pistas : List CStr) (c : CStr)
    (hcabe : ∀ p ∈ pistas, strlen p < PISTA_MAX) (hc : c ∈ pistas) :
    strlen c < PISTA_MAX ∧
    inserirPista (inserirPistas pistas) c = inserirPistas pistas ∧
    (inserirPista (inserirPistas pistas) c).tamanho = (inserirPistas pistas).tamanho ∧
    ∀ x : CStr, strlen x < PISTA_MAX →
      inserirPista (inserirPista (inserirPistas pistas) x) x =
        inserirPista (inserirPistas pistas) x := by
  have key : ∀ ps : List CStr, ∀ x ∈ ps, inserirPista (inserirPistas ps) x = inserirPistas ps :=
    fun ps x hx =>
      inserirPista_of_mem _ x (ordenada_inserirPistas ps) ((mem_inserirPistas ps x).2 hx)
  refine ⟨hcabe c hc, key pistas c hc, by rw [key pistas c hc], fun x _ => ?_⟩
  have h := key (pistas ++ [x]) x (by simp)
  simpa [inserirPistas, List.foldl_append] using h

/-- Witness for C2, on a tree of three clues. -/
theorem inserirPista_repetida_witness :
    (∀ p ∈ [cstr "Pegada", cstr "Faca", cstr "Terra"], strlen p < PISTA_MAX) ∧
    cstr "Faca" ∈ [cstr "Pegada", cstr "Faca", cstr "Terra"] ∧
    inserirPista (inserirPistas [cstr "Pegada", cstr "Faca", cstr "Terra"]) (cstr "Faca") =
      inserirPistas [cstr "Pegada", cstr "Faca", cstr "Terra"] ∧
    inserirPista (inserirPista (inserirPistas [cstr "Pegada", cstr "Faca", cstr "Terra"])
        (cstr "Carta")) (cstr "Carta") =
      inserirPista (inserirPistas [cstr "Pegada", cstr "Faca", cstr "Terra"]) (cstr "Carta") :=
  ⟨by decide, by decide, (inserirPista_repetida _ _ (by decide) (by decide)).2.1,
    (inserirPista_repetida [cstr "Pegada", cstr "Faca", cstr "Terra"] (cstr "Faca")
      (by decide) (by decide)).2.2.2 (cstr "Carta") (by decide)⟩

/-! ## The hash function -/

theorem funcaoHash_lt (charSigned : Bool) (str : CStr) : funcaoHash charSigned str < TAM_HASH :=
  Nat.mod_lt _ (by decide)

theorem charParaInt_of_unsigned (charSigned : Bool) (c : CChar)
    (h : charSigned = false ∨ c.val < 128) : charParaInt charSigned c = (c.val : Int) := by
  unfold charParaInt
  rw [if_neg]
  rintro ⟨h1, h2⟩
  rcases h with h | h
  · rw [h] at h1; exact Bool.noConfusion h1
  · omega

theorem funcaoHashLaco_eq (charSigned : Bool) (str : CStr) (hash : Nat)
    (hc : ∀ c ∈ str, charSigned = false ∨ c.val < 128)
    (hb : hash + 255 * str.length < 2 ^ 64) :
    funcaoHashLaco charSigned str hash = hash + somaCodigos str := by
  induction str generalizing hash with
  | nil => simp [funcaoHashLaco, somaCodigos]
  | cons c str ih =>
    have hc0 := charParaInt_of_unsigned charSigned c (hc c (List.mem_cons_self _ _))
    have hlt := c.property.2
    simp only [List.length_cons] at hb
    have hstep : (((hash : Int) + charParaInt charSigned c) % 2 ^ 64).toNat = hash + c.val := by
      rw [hc0]
      have h1 : ((hash : Int) + (c.val : Int)) % 2 ^ 64 = (hash : Int) + (c.val : Int) :=
        Int.emod_eq_of_lt (by omega) (by omega)
      rw [h1]
      omega
    simp only [funcaoHashLaco, hstep]
    rw [ih (hash + c.val) (fun x hx => hc x (List.mem_cons_of_mem _ hx)) (by omega)]
    simp only [somaCodigos, List.map_cons, List.sum_cons]
    omega

/-! ## The suspect table -/

theorem length_inserirNaHash (charSigned : Bool) (t : Tabela) (pista suspeito : CStr) :
    (inserirNaHash charSigned t pista suspeito).length = t.length := by
  simp [inserirNaHash]

theorem balde_inserirNaHash (charSigned : Bool) (t : Tabela) (pista suspeito : CStr) (i : Nat)
    (ht : t.length = TAM_HASH) :
    balde (inserirNaHash charSigned t pista suspeito) i =
      if funcaoHash charSigned pista = i then ⟨pista, suspeito⟩ :: balde t i else balde t i := by
  have hlt : funcaoHash charSigned pista < t.length := ht ▸ funcaoHash_lt charSigned pista
  simp only [inserirNaHash, balde, List.getD_eq_getElem?_getD, List.getElem?_set]
  split_ifs with h1
  · subst h1
    simp
  · rfl

theorem length_foldl_inserirNaHash (charSigned : Bool) (pares : List (CStr × CStr)) (t : Tabela) :
    (pares.foldl (fun t par => inserirNaHash charSigned t par.1 par.2) t).length = t.length := by
  induction pares generalizing t with
  | nil => rfl
  | cons p ps ih => simp only [List.foldl_cons, ih, length_inserirNaHash]

theorem length_inserirTodos (charSigned : Bool) (pares : List (CStr × CStr)) :
    (inserirTodos charSigned pares).length = TAM_HASH := by
  simp [inserirTodos, length_foldl_inserirNaHash, inicializarTabelaHash]

theorem balde_foldl_inserirNaHash (charSigned : Bool) (pares : List (CStr × CStr)) (t : Tabela)
    (i : Nat) (ht : t.length = TAM_HASH) :
    balde (pares.foldl (fun t par => inserirNaHash charSigned t par.1 par.2) t) i =
      ((pares.filter fun par => funcaoHash charSigned par.1 = i).reverse.map
        fun par => (⟨par.1, par.2⟩ : HashNode)) ++ balde t i := by
  induction pares generalizing t with
  | nil => simp
  | cons p ps ih =>
    rw [List.foldl_cons, ih _ (by rw [length_inserirNaHash]; exact ht),
      balde_inserirNaHash _ _ _ _ _ ht]
    by_cases h : funcaoHash charSigned p.1 = i
    · simp [List.filter_cons, h]
    · simp [List.filter_cons, h]

theorem balde_inicializarTabelaHash (i : Nat) : balde inicializarTabelaHash i = [] := by
  simp only [balde, inicializarTabelaHash, List.getD_eq_getElem?_getD]
  by_cases h : i < TAM_HASH
  · simp [List.getElem?_replicate, h]
  · simp [List.getElem?_replicate, h]

theorem balde_inserirTodos (charSigned : Bool) (pares : List (CStr × CStr)) (i : Nat) :
    balde (inserirTodos charSigned pares) i =
      (pares.filter fun par => funcaoHash charSigned par.1 = i).reverse.map
        fun par => (⟨par.1, par.2⟩ : HashNode) := by
  rw [inserirTodos, balde_foldl_inserirNaHash _ _ _ _ (by simp [inicializarTabelaHash]),
    balde_inicializarTabelaHash, List.append_nil]

theorem flatMap_balde_range (t : Tabela) :
    (List.range t.length).flatMap (balde t) = t.flatten := by
  induction t with
  | nil => simp
  | cons c t ih =>
    rw [List.length_cons, List.range_succ_eq_map, List.flatMap_cons, List.flatMap_map,
      List.flatten_cons]
    have h0 : balde (c :: t) 0 = c := rfl
    have h1 : (fun i => balde (c :: t) (Nat.succ i)) = balde t := rfl
    rw [h0]
    show c ++ (List.range t.length).flatMap (fun i => balde (c :: t) (Nat.succ i)) = _
    rw [h1, ih]

theorem entradas_eq_flatten (t : Tabela) (ht : t.length = TAM_HASH) : entradas t = t.flatten := by
  rw [entradas, ← ht, flatMap_balde_range]

theorem map_snd_mostrarAssociacoes (t : Tabela) :
    (mostrarAssociacoes t).map Prod.snd = entradas t := by
  simp [mostrarAssociacoes, entradas, List.map_flatMap, Function.comp_def]

theorem flatten_set_perm (t : Tabela) (i : Nat) (x : HashNode) (hi : i < t.length) :
    List.Perm (t.set i (x :: balde t i)).flatten (x :: t.flatten) := by
  induction t generalizing i with
  | nil => simp at hi
  | cons c t ih =>
    cases i with
    | zero => simp [balde]
    | succ i =>
      have hi2 : i < t.length := by simpa using hi
      have h1 : balde (c :: t) (i + 1) = balde t i := rfl
      rw [h1, List.set_cons_succ, List.flatten_cons, List.flatten_cons]
      exact ((ih i hi2).append_left c).trans List.perm_middle

theorem entradas_inserirNaHash_perm (charSigned : Bool) (t : Tabela) (pista suspeito : CStr)
    (ht : t.length = TAM_HASH) :
    List.Perm (entradas (inserirNaHash charSigned t pista suspeito))
      (⟨pista, suspeito⟩ :: entradas t) := by
  rw [entradas_eq_flatten _ (by rw [length_inserirNaHash]; exact ht), entradas_eq_flatten _ ht]
  exact flatten_set_perm t _ _ (ht ▸ funcaoHash_lt charSigned pista)

theorem entradas_foldl_perm (charSigned : Bool) (pares : List (CStr × CStr)) (t : Tabela)
    (ht : t.length = TAM_HASH) :
    List.Perm (entradas (pares.foldl (fun t par => inserirNaHash charSigned t par.1 par.2) t))
      ((pares.map fun par => (⟨par.1, par.2⟩ : HashNode)) ++ entradas t) := by
  induction pares generalizing t with
  | nil => simp
  | cons p ps ih =>
    rw [List.foldl_cons]
    refine (ih _ (by rw [length_inserirNaHash]; exact ht)).trans ?_
    rw [List.map_cons, List.cons_append]
    exact ((entradas_inserirNaHash_perm charSigned t p.1 p.2 ht).append_left _).trans
      List.perm_middle

theorem entradas_inicializarTabelaHash : entradas inicializarTabelaHash = [] := by
  simp [entradas, balde_inicializarTabelaHash]

theorem sorted_fst_flatMap (g : Nat → List HashNode) (l : List Nat) (hl : List.Sorted (· ≤ ·) l) :
    List.Sorted (· ≤ ·)
      ((l.flatMap fun i => (g i).map fun atual => (i, atual)).map Prod.fst) := by
  induction l with
  | nil => simp
  | cons i l ih =>
    have hl2 := List.pairwise_cons.1 hl
    simp only [List.flatMap_cons, List.map_append, List.map_map, List.Sorted,
      List.pairwise_append]
    refine ⟨?_, ih hl2.2, ?_⟩
    · rw [List.pairwise_map]
      exact List.pairwise_of_forall (fun _ _ => le_refl i)
    · intro a ha b hb
      rw [List.mem_map] at ha
      obtain ⟨_, _, rfl⟩ := ha
      simp only [List.mem_map, List.mem_flatMap] at hb
      obtain ⟨⟨j, n⟩, ⟨k, hk, hjn⟩, rfl⟩ := hb
      obtain ⟨_, _, h⟩ := hjn
      have : k = j := congrArg Prod.fst h
      subst this
      exact hl2.1 k hk

/-- C6: after any sequence of `inserirNaHash` calls on a freshly initialised table, with clues
and suspects that fit their fields (fewer than `PISTA_MAX` and `SUSPEITO_MAX` bytes), the pairs
listed over the ten chains are the inserted pairs up to order: each pair appears as many times as
it was inserted, and nothing else appears; every entry listed fits its fields. -/
theorem pares_mostrarAssociacoes (charSigned : Bool) (pares : List (CStr × CStr))
    (hcabe : ∀ par ∈ pares, strlen par.1 < PISTA_MAX ∧ strlen par.2 < SUSPEITO_MAX) :
    List.Perm
      ((mostrarAssociacoes (inserirTodos charSigned pares)).map
        fun x => (x.2.pista, x.2.suspeito)) pares ∧
    Multiset.ofList ((mostrarAssociacoes (inserirTodos charSigned pares)).map
        fun x => (x.2.pista, x.2.suspeito)) = Multiset.ofList pares ∧
    ∀ x ∈ mostrarAssociacoes (inserirTodos charSigned pares),
      strlen x.2.pista < PISTA_MAX ∧ strlen x.2.suspeito < SUSPEITO_MAX := by
  have hp : List.Perm
      ((mostrarAssociacoes (inserirTodos charSigned pares)).map
        fun x => (x.2.pista, x.2.suspeito)) pares := by
    have h1 : (mostrarAssociacoes (inserirTodos charSigned pares)).map
        (fun x => (x.2.pista, x.2.suspeito)) =
        (entradas (inserirTodos charSigned pares)).map fun n => (n.pista, n.suspeito) := by
      rw [← map_snd_mostrarAssociacoes, List.map_map]
      rfl
    rw [h1]
    have h2 := entradas_foldl_perm charSigned pares inicializarTabelaHash
      (by simp [inicializarTabelaHash])
    rw [entradas_inicializarTabelaHash, List.append_nil] at h2
    have h3 := h2.map fun n : HashNode => (n.pista, n.suspeito)
    rw [List.map_map] at h3
    have h4 : ((fun n : HashNode => (n.pista, n.suspeito)) ∘
        fun par : CStr × CStr => (⟨par.1, par.2⟩ : HashNode)) = id := by
      funext par
      rfl
    rw [h4, List.map_id] at h3
    exact h3
  refine ⟨hp, Multiset.coe_eq_coe.2 hp, fun x hx => ?_⟩
  exact hcabe (x.2.pista, x.2.suspeito)
    (hp.subset (List.mem_map_of_mem (fun y : Nat × HashNode => (y.2.pista, y.2.suspeito)) hx))

/-- Witness for C6: three insertions, two of them of the same pair. -/
theorem pares_mostrarAssociacoes_witness :
    (∀ par ∈ [(cstr "Faca de Prata", cstr "Cozinheiro"), (cstr "Carta Amassada", cstr "Mordomo"),
        (cstr "Faca de Prata", cstr "Cozinheiro")],
      strlen par.1 < PISTA_MAX ∧ strlen par.2 < SUSPEITO_MAX) ∧
    List.Perm
      ((mostrarAssociacoes (inserirTodos true [(cstr "Faca de Prata", cstr "Cozinheiro"),
        (cstr "Carta Amassada", cstr "Mordomo"), (cstr "Faca de Prata", cstr "Cozinheiro")])).map
        fun x => (x.2.pista, x.2.suspeito))
      [(cstr "Faca de Prata", cstr "Cozinheiro"), (cstr "Carta Amassada", cstr "Mordomo"),
        (cstr "Faca de Prata", cstr "Cozinheiro")] :=
  ⟨by decide,
    (pares_mostrarAssociacoes true [(cstr "Faca de Prata", cstr "Cozinheiro"),
      (cstr "Carta Amassada", cstr "Mordomo"), (cstr "Faca de Prata", cstr "Cozinheiro")]
      (by decide)).1⟩

/-- C7: after any sequence of `inserirNaHash` calls on a freshly initialised table, with clues
and suspects that fit their fields (fewer than `PISTA_MAX` and `SUSPEITO_MAX` bytes),
`mostrarAssociacoes` lists the slots in ascending index order and, under slot `i`, the inserted
pairs whose clue hashes to `i`, the last inserted first; every entry listed fits its fields. -/
theorem ordem_mostrarAssociacoes (charSigned : Bool) (pares : List (CStr × CStr))
    (hcabe : ∀ par ∈ pares, strlen par.1 < PISTA_MAX ∧ strlen par.2 < SUSPEITO_MAX) :
    mostrarAssociacoes (inserirTodos charSigned pares) =
      ((List.range TAM_HASH).flatMap fun i =>
        (pares.filter fun par => funcaoHash charSigned par.1 = i).reverse.map
          fun par => (i, (⟨par.1, par.2⟩ : HashNode))) ∧
    List.Sorted (· ≤ ·) ((mostrarAssociacoes (inserirTodos charSigned pares)).map Prod.fst) ∧
    ∀ x ∈ mostrarAssociacoes (inserirTodos charSigned pares),
      strlen x.2.pista < PISTA_MAX ∧ strlen x.2.suspeito < SUSPEITO_MAX := by
  have heq : mostrarAssociacoes (inserirTodos charSigned pares) =
      ((List.range TAM_HASH).flatMap fun i =>
        (pares.filter fun par => funcaoHash charSigned par.1 = i).reverse.map
          fun par => (i, (⟨par.1, par.2⟩ : HashNode))) := by
    simp only [mostrarAssociacoes, balde_inserirTodos, List.map_map]
    rfl
  refine ⟨heq, sorted_fst_flatMap _ _ (List.sorted_le_range TAM_HASH), fun x hx => ?_⟩
  rw [heq] at hx
  obtain ⟨i, _, hxi⟩ := List.mem_flatMap.1 hx
  obtain ⟨par, hpar, rfl⟩ := List.mem_map.1 hxi
  exact hcabe par (List.mem_filter.1 (List.mem_reverse.1 hpar)).1

/-- Witness for C7: `Faca de Prata` and `Corda de Piano Arrebentada` both go to slot 2, the
second inserted is listed first; `Carta Amassada` is listed after them, under slot 8. -/
theorem ordem_mostrarAssociacoes_witness :
    (∀ par ∈ [(cstr "Carta Amassada", cstr "Mordomo"), (cstr "Faca de Prata", cstr "Cozinheiro"),
        (cstr "Corda de Piano Arrebentada", cstr "Mordomo")],
      strlen par.1 < PISTA_MAX ∧ strlen par.2 < SUSPEITO_MAX) ∧
    mostrarAssociacoes (inserirTodos true [(cstr "Carta Amassada", cstr "Mordomo"),
      (cstr "Faca de Prata", cstr "Cozinheiro"),
      (cstr "Corda de Piano Arrebentada", cstr "Mordomo")]) =
      [(2, ⟨cstr "Corda de Piano Arrebentada", cstr "Mordomo"⟩),
        (2, ⟨cstr "Faca de Prata", cstr "Cozinheiro"⟩),
        (8, ⟨cstr "Carta Amassada", cstr "Mordomo"⟩)] :=
  ⟨by decide,
    (ordem_mostrarAssociacoes true [(cstr "Carta Amassada", cstr "Mordomo"),
      (cstr "Faca de Prata", cstr "Cozinheiro"),
      (cstr "Corda de Piano Arrebentada", cstr "Mordomo")] (by decide)).1.trans (by decide)⟩

/-- C8 (as stated, refuted): where plain `char` is signed, the string with bytes 128, 122, 122
is hashed to 6, while the sum of its byte values, 372, leaves 2. -/
theorem funcaoHash_byte_alto :
    funcaoHash true [⟨128, by decide⟩, ⟨122, by decide⟩, ⟨122, by decide⟩] = 6 ∧
    somaCodigos [⟨128, by decide⟩, ⟨122, by decide⟩, ⟨122, by decide⟩] % 10 = 2 ∧
    funcaoHash true [⟨128, by decide⟩, ⟨122, by decide⟩, ⟨122, by decide⟩] ≠
      somaCodigos [⟨128, by decide⟩, ⟨122, by decide⟩, ⟨122, by decide⟩] % 10 := by
  decide

/-- C8 (amended): for a string shorter than `2 ^ 56` bytes whose bytes are all below 128, or
any such string where plain `char` is unsigned, `funcaoHash` is the sum of the byte values
modulo 10. -/
theorem funcaoHash_eq_soma (charSigned : Bool) (str : CStr)
    (hc : ∀ c ∈ str, charSigned = false ∨ c.val < 128) (hlen : str.length < 2 ^ 56) :
    funcaoHash charSigned str = somaCodigos str % 10 := by
  unfold funcaoHash
  rw [funcaoHashLaco_eq charSigned str 0 hc (by omega), Nat.zero_add]
  rfl

/-- Witness for C8 (amended), on a clue of `main` with signed `char`. -/
theorem funcaoHash_eq_soma_witness :
    funcaoHash true (cstr "Faca de Prata") = somaCodigos (cstr "Faca de Prata") % 10 :=
  funcaoHash_eq_soma true (cstr "Faca de Prata") (by decide) (by decide)

/-- C9: `funcaoHash` always returns an index from 0 to 9, a valid slot of the initialised
table, and strings that `strcmp` finds equal get the same index. -/
theorem funcaoHash_indice (charSigned : Bool) (str outra : CStr) (h : strcmp str outra = 0) :
    funcaoHash charSigned str ≤ 9 ∧
    funcaoHash charSigned str < inicializarTabelaHash.length ∧
    funcaoHash charSigned outra = funcaoHash charSigned str := by
  have hlt := funcaoHash_lt charSigned str
  have heq : str = outra := (strcmp_eq_zero_iff str outra).1 h
  subst heq
  refine ⟨?_, ?_, rfl⟩
  · unfold TAM_HASH at hlt
    omega
  · simpa [inicializarTabelaHash] using hlt

/-- Witness for C9, on a clue of `main`. -/
theorem funcaoHash_indice_witness :
    strcmp (cstr "Faca de Prata") (cstr "Faca de Prata") = 0 ∧
    funcaoHash true (cstr "Faca de Prata") ≤ 9 :=
  ⟨by decide, (funcaoHash_indice true (cstr "Faca de Prata") (cstr "Faca de Prata")
    (by decide)).1⟩

/-! ## The tally of `encontrarCulpado` -/

theorem procurarSuspeito_ausente (T : List ContadorSuspeito) (x : CStr)
    (hx : x ∉ T.map ContadorSuspeito.nome) : procurarSuspeito T x = (T, false) := by
  induction T with
  | nil => rfl
  | cons c T ih =>
    simp only [List.map_cons, List.mem_cons, not_or] at hx
    have hne : ¬ strcmp c.nome x = 0 := fun h => hx.1 ((strcmp_eq_zero_iff _ _).1 h).symm
    simp only [procurarSuspeito, if_neg hne, ih hx.2]

theorem nome_citar (x : CStr) (c : ContadorSuspeito) : (citar x c).nome = c.nome := by
  unfold citar
  split_ifs <;> rfl

theorem map_nome_citar (x : CStr) (T : List ContadorSuspeito) :
    (T.map (citar x)).map ContadorSuspeito.nome = T.map ContadorSuspeito.nome := by
  rw [List.map_map]
  exact List.map_congr_left (fun c _ => nome_citar x c)

theorem map_citar_ausente (T : List ContadorSuspeito) (x : CStr)
    (hx : x ∉ T.map ContadorSuspeito.nome) : T.map (citar x) = T := by
  induction T with
  | nil => rfl
  | cons c T ih =>
    simp only [List.map_cons, List.mem_cons, not_or] at hx
    have hne : ¬ c.nome = x := fun h => hx.1 h.symm
    simp only [List.map_cons, ih hx.2, citar, if_neg hne]

theorem procurarSuspeito_presente (T : List ContadorSuspeito) (x : CStr)
    (hn : (T.map ContadorSuspeito.nome).Nodup) (hx : x ∈ T.map ContadorSuspeito.nome) :
    procurarSuspeito T x = (T.map (citar x), true) := by
  induction T with
  | nil => simp at hx
  | cons c T ih =>
    simp only [List.map_cons, List.nodup_cons] at hn
    by_cases hc : c.nome = x
    · have h0 : strcmp c.nome x = 0 := (strcmp_eq_zero_iff _ _).2 hc
      have hx2 : x ∉ T.map ContadorSuspeito.nome := hc ▸ hn.1
      simp only [procurarSuspeito, if_pos h0, List.map_cons, map_citar_ausente T x hx2, citar,
        if_pos hc]
    · have h0 : ¬ strcmp c.nome x = 0 := fun h => hc ((strcmp_eq_zero_iff _ _).1 h)
      have hx2 : x ∈ T.map ContadorSuspeito.nome := by
        simp only [List.map_cons, List.mem_cons] at hx
        rcases hx with h | h
        · exact absurd h.symm hc
        · exact h
      simp only [procurarSuspeito, if_neg h0, ih hn.2 hx2, List.map_cons, citar, if_neg hc]

theorem primeiroAntes_append {P : List CStr} {a b : CStr} (x : CStr)
    (h : primeiroAntes P a b) : primeiroAntes (P ++ [x]) a b := by
  obtain ⟨l1, l2, rfl, h1, h2⟩ := h
  exact ⟨l1, l2 ++ [x], by simp, h1, h2⟩

theorem primeiroAntes_novo {P : List CStr} {a x : CStr} (ha : a ∈ P) (hx : x ∉ P) :
    primeiroAntes (P ++ [x]) a x := by
  obtain ⟨l1, l2, rfl, h1⟩ := List.eq_append_cons_of_mem ha
  refine ⟨l1, l2 ++ [x], by simp, h1, ?_⟩
  intro h
  exact hx (List.mem_append_left _ h)

theorem talhaOk_contarNode {P : List CStr} {T : List ContadorSuspeito} (h : TalhaOk P T)
    (atual : HashNode) : TalhaOk (P ++ [atual.suspeito]) (contarNode T atual) := by
  obtain ⟨p, x⟩ := atual
  show TalhaOk (P ++ [x]) (contarNode T ⟨p, x⟩)
  by_cases hx : x ∈ T.map ContadorSuspeito.nome
  · have hT : contarNode T ⟨p, x⟩ = T.map (citar x) := by
      simp [contarNode, procurarSuspeito_presente T x h.nodup hx]
    rw [hT]
    refine ⟨?_, ?_, ?_, ?_, ?_⟩
    · rw [map_nome_citar]; exact h.nodup
    · intro c hc
      obtain ⟨c0, hc0, rfl⟩ := List.mem_map.1 hc
      obtain ⟨h1, h2⟩ := h.conta c0 hc0
      refine ⟨?_, by rw [nome_citar]; exact List.mem_append_left _ h2⟩
      rw [nome_citar, List.countP_append]
      unfold citar
      by_cases hcx : c0.nome = x
      · simp [hcx, h1]
      · have hxc : ¬ x = c0.nome := fun e => hcx e.symm
        simp [hcx, hxc, h1]
    · rw [List.length_map]; exact h.cabe
    · rw [List.length_map, map_nome_citar]
      intro hlt y hy
      rcases List.mem_append.1 hy with hy | hy
      · exact h.todos hlt y hy
      · rw [List.mem_singleton.1 hy]; exact hx
    · rw [map_nome_citar]
      exact h.ordem.imp (primeiroAntes_append x)
  · have hP : procurarSuspeito T x = (T, false) := procurarSuspeito_ausente T x hx
    have holdc : ∀ c ∈ T, c.contagem = (P ++ [x]).countP (fun y => y = c.nome) ∧
        c.nome ∈ P ++ [x] := by
      intro c hc
      obtain ⟨h1, h2⟩ := h.conta c hc
      have hne : ¬ x = c.nome := fun e => hx (e ▸ List.mem_map_of_mem _ hc)
      refine ⟨?_, List.mem_append_left _ h2⟩
      rw [List.countP_append]
      simp [hne, h1]
    by_cases hlen : T.length < 20
    · have hT : contarNode T ⟨p, x⟩ = T ++ [⟨x, 1⟩] := by
        simp [contarNode, hP, hlen]
      have hxP : x ∉ P := fun hxP => hx (h.todos hlen x hxP)
      rw [hT]
      refine ⟨?_, ?_, ?_, ?_, ?_⟩
      · rw [List.map_append, List.nodup_append]
        refine ⟨h.nodup, by simp, ?_⟩
        intro a ha hb
        simp only [List.map_cons, List.map_nil, List.mem_singleton] at hb
        exact hx (hb ▸ ha)
      · intro c hc
        rcases List.mem_append.1 hc with hc | hc
        · exact holdc c hc
        · rw [List.mem_singleton.1 hc]
          refine ⟨?_, by simp⟩
          rw [List.countP_append]
          have h0 : P.countP (fun y => decide (y = x)) = 0 := by
            rw [List.countP_eq_zero]
            intro a ha
            simp only [decide_eq_true_eq]
            intro e
            exact hxP (e ▸ ha)
          simp [h0]
      · rw [List.length_append, List.length_singleton]; omega
      · intro _ y hy
        rw [List.map_append]
        rcases List.mem_append.1 hy with hy | hy
        · exact List.mem_append_left _ (h.todos hlen y hy)
        · exact List.mem_append_right _ (by simpa using hy)
      · rw [List.map_append, List.pairwise_append]
        refine ⟨h.ordem.imp (primeiroAntes_append x), by simp, ?_⟩
        intro a ha b hb
        simp only [List.map_cons, List.map_nil, List.mem_singleton] at hb
        subst hb
        obtain ⟨c, hc, rfl⟩ := List.mem_map.1 ha
        exact primeiroAntes_novo (h.conta c hc).2 hxP
    · have hT : contarNode T ⟨p, x⟩ = T := by
        simp [contarNode, hP, hlen]
      rw [hT]
      exact ⟨h.nodup, holdc, h.cabe, fun hlt => absurd hlt hlen,
        h.ordem.imp (primeiroAntes_append x)⟩

theorem talhaOk_nil : TalhaOk [] [] :=
  ⟨by simp, by simp, by simp, by simp, by simp⟩

theorem talhaOk_foldl (es : List HashNode) {P : List CStr} {T : List ContadorSuspeito}
    (h : TalhaOk P T) : TalhaOk (P ++ es.map HashNode.suspeito) (es.foldl contarNode T) := by
  induction es generalizing P T with
  | nil => simpa using h
  | cons e es ih =>
    have := ih (talhaOk_contarNode h e)
    simpa using this

theorem foldl_flatMap_balde (g : Nat → List HashNode) (l : List Nat)
    (acc : List ContadorSuspeito) :
    l.foldl (fun contadores i => (g i).foldl contarNode contadores) acc =
      (l.flatMap g).foldl contarNode acc := by
  induction l generalizing acc with
  | nil => rfl
  | cons i l ih => simp only [List.foldl_cons, List.flatMap_cons, List.foldl_append, ih]

theorem contarTabela_eq (t : Tabela) : contarTabela t = (entradas t).foldl contarNode [] :=
  foldl_flatMap_balde (balde t) _ []

theorem talhaOk_contarTabela (t : Tabela) : TalhaOk (suspeitos t) (contarTabela t) := by
  rw [contarTabela_eq]
  have := talhaOk_foldl (entradas t) talhaOk_nil
  simpa [suspeitos] using this

theorem maiorContagem_split (c0 : ContadorSuspeito) (resto : List ContadorSuspeito) :
    ∃ A w B, c0 :: resto = A ++ w :: B ∧
      maiorContagem resto (c0.nome, c0.contagem) = (w.nome, w.contagem) ∧
      (∀ a ∈ A, a.contagem < w.contagem) ∧ (∀ b ∈ B, b.contagem ≤ w.contagem) := by
  induction resto generalizing c0 with
  | nil => exact ⟨[], c0, [], rfl, rfl, by simp, by simp⟩
  | cons c resto ih =>
    by_cases hc : c.contagem > c0.contagem
    · have hstep : maiorContagem (c :: resto) (c0.nome, c0.contagem) =
          maiorContagem resto (c.nome, c.contagem) := by
        simp [maiorContagem, hc]
      obtain ⟨A, w, B, hsplit, hres, hA, hB⟩ := ih c
      refine ⟨c0 :: A, w, B, by rw [hsplit]; rfl, hstep.trans hres, ?_, hB⟩
      intro a ha
      have hcw : c.contagem ≤ w.contagem := by
        cases A with
        | nil =>
          have : c = w := by simpa using congrArg List.head? hsplit
          rw [this]
        | cons a0 A =>
          have : c = a0 := by simpa using congrArg List.head? hsplit
          exact Nat.le_of_lt (hA c (this ▸ List.mem_cons_self _ _))
      rcases List.mem_cons.1 ha with rfl | ha
      · omega
      · exact hA a ha
    · have hstep : maiorContagem (c :: resto) (c0.nome, c0.contagem) =
          maiorContagem resto (c0.nome, c0.contagem) := by
        simp [maiorContagem, hc]
      obtain ⟨A, w, B, hsplit, hres, hA, hB⟩ := ih c0
      cases A with
      | nil =>
        have h0 : c0 = w := by simpa using congrArg List.head? hsplit
        have hB0 : resto = B := by simpa using congrArg List.tail hsplit
        subst h0
        subst hB0
        refine ⟨[], c0, c :: resto, rfl, hstep.trans hres, by simp, ?_⟩
        intro b hb
        rcases List.mem_cons.1 hb with rfl | hb
        · omega
        · exact hB b hb
      | cons a0 A =>
        have h0 : c0 = a0 := by simpa using congrArg List.head? hsplit
        have hB0 : resto = A ++ w :: B := by simpa using congrArg List.tail hsplit
        subst h0
        refine ⟨c0 :: c :: A, w, B, by rw [hB0]; rfl, hstep.trans hres, ?_, hB⟩
        have hc0 : c0.contagem < w.contagem := hA c0 (List.mem_cons_self _ _)
        intro a ha
        rcases List.mem_cons.1 ha with rfl | ha
        · exact hc0
        · rcases List.mem_cons.1 ha with rfl | ha
          · omega
          · exact hA a (List.mem_cons_of_mem _ ha)

theorem citacoes_eq (t : Tabela) (s : CStr) :
    citacoes t s = (suspeitos t).countP (fun y => y = s) := by
  simp [citacoes, suspeitos, List.countP_map, Function.comp_def]

theorem countP_pos_of_mem {P : List CStr} {s : CStr} (h : s ∈ P) :
    1 ≤ P.countP (fun y => y = s) :=
  List.countP_pos_iff.2 ⟨s, h, by simp⟩

theorem mem_of_countP_pos {P : List CStr} {s : CStr} (h : 1 ≤ P.countP (fun y => y = s)) :
    s ∈ P := by
  obtain ⟨a, ha, hp⟩ := List.countP_pos_iff.1 h
  have : a = s := by simpa using hp
  exact this ▸ ha

/-- The verdict on a table with at least one entry. -/
theorem encontrarCulpado_spec (t : Tabela) (hne : entradas t ≠ []) :
    ∃ s n, encontrarCulpado t = some (s, n) ∧ n = citacoes t s ∧ 1 ≤ n ∧
      ((suspeitos t).dedup.length ≤ 20 →
        (∀ s2, citacoes t s2 ≤ n) ∧
        ∀ s2, s2 ≠ s → citacoes t s2 = n → primeiroAntes (suspeitos t) s s2) := by
  have hJ := talhaOk_contarTabela t
  have hLne : suspeitos t ≠ [] := by
    simpa [suspeitos] using hne
  have hTne : contarTabela t ≠ [] := by
    intro h0
    obtain ⟨x, hx⟩ := List.exists_mem_of_ne_nil _ hLne
    have := hJ.todos (by rw [h0]; simp) x hx
    rw [h0] at this
    simp at this
  obtain ⟨c0, resto, hT⟩ := List.exists_cons_of_ne_nil hTne
  obtain ⟨A, w, B, hsplit, hres, hA, hB⟩ := maiorContagem_split c0 resto
  have hwT : w ∈ contarTabela t := by rw [hT, hsplit]; simp
  obtain ⟨hwc, hwP⟩ := hJ.conta w hwT
  refine ⟨w.nome, w.contagem, ?_, ?_, ?_, ?_⟩
  · simp only [encontrarCulpado, hT, hres]
  · rw [citacoes_eq]; exact hwc
  · rw [hwc]; exact countP_pos_of_mem hwP
  · intro hd
    have hall : ∀ x ∈ suspeitos t, x ∈ (contarTabela t).map ContadorSuspeito.nome := by
      intro x hx
      by_contra hxn
      have hfull : ¬ (contarTabela t).length < 20 := fun hlt => hxn (hJ.todos hlt x hx)
      have hnd : (x :: (contarTabela t).map ContadorSuspeito.nome).Nodup :=
        List.nodup_cons.2 ⟨hxn, hJ.nodup⟩
      have hsub : x :: (contarTabela t).map ContadorSuspeito.nome ⊆ (suspeitos t).dedup := by
        intro y hy
        rw [List.mem_dedup]
        rcases List.mem_cons.1 hy with rfl | hy
        · exact hx
        · obtain ⟨c, hc, rfl⟩ := List.mem_map.1 hy
          exact (hJ.conta c hc).2
      have hle := (List.subperm_of_subset hnd hsub).length_le
      simp only [List.length_cons, List.length_map] at hle
      omega
    have hcount : ∀ s2, 1 ≤ citacoes t s2 →
        ∃ c ∈ contarTabela t, c.nome = s2 ∧ c.contagem = citacoes t s2 := by
      intro s2 h1
      rw [citacoes_eq] at h1
      obtain ⟨c, hc, hcn⟩ := List.mem_map.1 (hall s2 (mem_of_countP_pos h1))
      refine ⟨c, hc, hcn, ?_⟩
      rw [citacoes_eq, ← hcn]
      exact (hJ.conta c hc).1
    have hmem : ∀ c ∈ contarTabela t, c ∈ A ∨ c = w ∨ c ∈ B := by
      intro c hc
      rw [hT, hsplit] at hc
      simpa using hc
    constructor
    · intro s2
      by_cases h1 : 1 ≤ citacoes t s2
      · obtain ⟨c, hc, _, hcc⟩ := hcount s2 h1
        rw [← hcc]
        rcases hmem c hc with h | h | h
        · exact Nat.le_of_lt (hA c h)
        · rw [h]
        · exact hB c h
      · have : 1 ≤ w.contagem := by rw [hwc]; exact countP_pos_of_mem hwP
        omega
    · intro s2 hs2 hn
      have h1 : 1 ≤ citacoes t s2 := by
        rw [hn, hwc]; exact countP_pos_of_mem hwP
      obtain ⟨c, hc, hcn, hcc⟩ := hcount s2 h1
      have hord := hJ.ordem
      rw [hT, hsplit, List.map_append, List.map_cons, List.pairwise_append,
        List.pairwise_cons] at hord
      rcases hmem c hc with h | h | h
      · have := hA c h
        omega
      · exact absurd (h ▸ hcn).symm hs2
      · rw [← hcn]
        exact hord.2.1.1 _ (List.mem_map_of_mem _ h)

theorem entradas_eq_nil_iff (t : Tabela) :
    entradas t = [] ↔ ∀ i, i < TAM_HASH → balde t i = [] := by
  simp [entradas, List.flatMap_eq_nil_iff]

theorem encontrarCulpado_eq_none_iff (t : Tabela) :
    encontrarCulpado t = none ↔ entradas t = [] := by
  constructor
  · intro h
    by_contra hne
    obtain ⟨s, n, hsn, _⟩ := encontrarCulpado_spec t hne
    rw [hsn] at h
    exact Option.noConfusion h
  · intro h
    simp [encontrarCulpado, contarTabela_eq, h]

theorem suspeitos_inserirTodos_perm (charSigned : Bool) (pares : List (CStr × CStr)) :
    List.Perm (suspeitos (inserirTodos charSigned pares)) (pares.map Prod.snd) := by
  have h2 := entradas_foldl_perm charSigned pares inicializarTabelaHash
    (by simp [inicializarTabelaHash])
  rw [entradas_inicializarTabelaHash, List.append_nil] at h2
  have h3 := h2.map HashNode.suspeito
  rw [List.map_map] at h3
  exact h3

theorem culpado_tresPares (charSigned : Bool) (c1 c2 c3 : CStr) (ordem : List (CStr × CStr))
    (hp : List.Perm ordem (tresPares c1 c2 c3)) :
    encontrarCulpado (inserirTodos charSigned ordem) = some (cstr "Cook", 2) := by
  have hperm : List.Perm (suspeitos (inserirTodos charSigned ordem))
      [cstr "Cook", cstr "Cook", cstr "Butler"] :=
    (suspeitos_inserirTodos_perm charSigned ordem).trans (hp.map Prod.snd)
  have hcit : ∀ s, citacoes (inserirTodos charSigned ordem) s =
      [cstr "Cook", cstr "Cook", cstr "Butler"].countP (fun y => y = s) := by
    intro s
    rw [citacoes_eq]
    exact hperm.countP_eq _
  have hne : entradas (inserirTodos charSigned ordem) ≠ [] := by
    intro h0
    have : suspeitos (inserirTodos charSigned ordem) = [] := by simp [suspeitos, h0]
    rw [this] at hperm
    exact absurd hperm.length_eq (by simp)
  have hd : (suspeitos (inserirTodos charSigned ordem)).dedup.length ≤ 20 := by
    have h1 := (List.dedup_sublist (suspeitos (inserirTodos charSigned ordem))).length_le
    have h2 := hperm.length_eq
    simp only [List.length_cons, List.length_nil] at h2
    omega
  obtain ⟨s, n, hres, hn, _, hrest⟩ := encontrarCulpado_spec _ hne
  have hmax := (hrest hd).1 (cstr "Cook")
  rw [hcit] at hn hmax
  have hcook : [cstr "Cook", cstr "Cook", cstr "Butler"].countP
      (fun y => decide (y = cstr "Cook")) = 2 := by decide
  rw [hcook] at hmax
  have hs : s = cstr "Cook" := by
    by_contra hsne
    have h1 : ¬ cstr "Cook" = s := fun e => hsne e.symm
    have hle : [cstr "Cook", cstr "Cook", cstr "Butler"].countP (fun y => decide (y = s)) ≤ 1 := by
      simp only [List.countP_cons, List.countP_nil, h1, decide_False, Bool.false_eq_true,
        if_false]
      split_ifs <;> omega
    omega
  subst hs
  rw [hcook] at hn
  rw [hres, hn]

/-- C3 (as stated, refuted): in the ledger `vinteEDois` the verdict names `S18` with count 1,
while `Zeca` is the suspect of two entries. -/
theorem culpado_vinteEDois :
    (inserirTodos true vinteEDois).length = TAM_HASH ∧
    entradas (inserirTodos true vinteEDois) ≠ [] ∧
    encontrarCulpado (inserirTodos true vinteEDois) = some (cstr "S18", 1) ∧
    citacoes (inserirTodos true vinteEDois) (cstr "S18") = 1 ∧
    citacoes (inserirTodos true vinteEDois) (cstr "Zeca") = 2 := by
  decide

/-- C3 (amended): on every ledger with at least one entry the verdict names a suspect `s` with a
count `n` that is exactly the number of entries whose suspect is `s`; when the ledger has at most
20 distinct suspects, no suspect occurs in more than `n` entries. -/
theorem culpado_contagem (t : Tabela) (hne : entradas t ≠ []) :
    ∃ s n, encontrarCulpado t = some (s, n) ∧ n = citacoes t s ∧
      ((suspeitos t).dedup.length ≤ 20 → ∀ s2, citacoes t s2 ≤ n) := by
  obtain ⟨s, n, h1, h2, _, h3⟩ := encontrarCulpado_spec t hne
  exact ⟨s, n, h1, h2, fun hd => (h3 hd).1⟩

/-- Witness for C3 (amended), on the Cook, Cook, Butler ledger. -/
theorem culpado_contagem_witness :
    entradas (inserirTodos true (tresPares (cstr "c1") (cstr "c2") (cstr "c3"))) ≠ [] ∧
    (suspeitos (inserirTodos true
      (tresPares (cstr "c1") (cstr "c2") (cstr "c3")))).dedup.length ≤ 20 ∧
    ∃ s n, encontrarCulpado (inserirTodos true (tresPares (cstr "c1") (cstr "c2") (cstr "c3"))) =
        some (s, n) ∧
      n = citacoes (inserirTodos true (tresPares (cstr "c1") (cstr "c2") (cstr "c3"))) s ∧
      ∀ s2, citacoes (inserirTodos true (tresPares (cstr "c1") (cstr "c2") (cstr "c3"))) s2 ≤ n :=
  ⟨by decide, by decide,
    (culpado_contagem (inserirTodos true (tresPares (cstr "c1") (cstr "c2") (cstr "c3")))
      (by decide)).imp fun _ h => h.imp fun _ hn => ⟨hn.1, hn.2.1, hn.2.2 (by decide)⟩⟩

/-- C4: on a ledger with at least one entry and at most 20 distinct suspects, the verdict is
`(s, n)` where `n` is the greatest number of entries sharing a suspect and `s` is, among the
suspects with `n` entries, the one whose first entry comes first in the enumeration (slots 0 to
9, each chain head first). Whatever the clues and the order of insertion, the ledger with
suspects Cook, Cook, Butler gives `("Cook", 2)`. -/
theorem culpado_maximo (t : Tabela) (hne : entradas t ≠ [])
    (hd : (suspeitos t).dedup.length ≤ 20) :
    (∃ s n, encontrarCulpado t = some (s, n) ∧ n = citacoes t s ∧
      (∀ s2, citacoes t s2 ≤ n) ∧
      ∀ s2, s2 ≠ s → citacoes t s2 = n → primeiroAntes (suspeitos t) s s2) ∧
    ∀ (charSigned : Bool) (c1 c2 c3 : CStr) (ordem : List (CStr × CStr)),
      List.Perm ordem (tresPares c1 c2 c3) →
        encontrarCulpado (inserirTodos charSigned ordem) = some (cstr "Cook", 2) := by
  obtain ⟨s, n, h1, h2, _, h3⟩ := encontrarCulpado_spec t hne
  exact ⟨⟨s, n, h1, h2, (h3 hd).1, (h3 hd).2⟩, culpado_tresPares⟩

/-- Witness for C4, on the Cook, Cook, Butler ledger inserted in another order. -/
theorem culpado_maximo_witness :
    entradas (inserirTodos true (tresPares (cstr "Faca") (cstr "Veneno") (cstr "Bota"))) ≠ [] ∧
    (suspeitos (inserirTodos true
      (tresPares (cstr "Faca") (cstr "Veneno") (cstr "Bota")))).dedup.length ≤ 20 ∧
    encontrarCulpado (inserirTodos true
      [(cstr "Bota", cstr "Butler"), (cstr "Faca", cstr "Cook"), (cstr "Veneno", cstr "Cook")]) =
        some (cstr "Cook", 2) :=
  ⟨by decide, by decide,
    (culpado_maximo (inserirTodos true (tresPares (cstr "Faca") (cstr "Veneno") (cstr "Bota")))
      (by decide) (by decide)).2 true (cstr "Faca") (cstr "Veneno") (cstr "Bota") _ (by decide)⟩

/-- C5: `encontrarCulpado` reports no suspect exactly when the ten slots are all empty; on a
ledger with at least one entry it names a suspect with a count of at least 1. -/
theorem culpado_nenhum (t : Tabela) :
    (encontrarCulpado t = none ↔ ∀ i, i < TAM_HASH → balde t i = []) ∧
    (entradas t ≠ [] → ∃ s n, encontrarCulpado t = some (s, n) ∧ 1 ≤ n) := by
  refine ⟨?_, fun hne => ?_⟩
  · rw [encontrarCulpado_eq_none_iff, entradas_eq_nil_iff]
  · obtain ⟨s, n, h1, _, h2, _⟩ := encontrarCulpado_spec t hne
    exact ⟨s, n, h1, h2⟩

/-- Witness for C5, on the empty table and on a table with one entry. -/
theorem culpado_nenhum_witness :
    encontrarCulpado inicializarTabelaHash = none ∧
    ∃ s n, encontrarCulpado (inserirTodos true [(cstr "Faca de Prata", cstr "Cook")]) =
      some (s, n) ∧ 1 ≤ n :=
  ⟨(culpado_nenhum inicializarTabelaHash).1.2 (fun i _ => balde_inicializarTabelaHash i),
    (culpado_nenhum (inserirTodos true [(cstr "Faca de Prata", cstr "Cook")])).2 (by decide)⟩

/-! ## The exploration loop -/

theorem em_limparPista_self (m : Sala) (c : List Lado) (nome : CStr) (e d : Sala)
    (pista suspeito : CStr) (h : m.em c = .sala nome e d pista suspeito) :
    (m.limparPista c).em c = .sala nome e d [] suspeito := by
  induction c generalizing m with
  | nil =>
    cases m with
    | nulo => simp [Sala.em] at h
    | sala n e0 d0 p s0 =>
      simp only [Sala.em] at h
      simp only [Sala.limparPista, Sala.em]
      cases h
      rfl
  | cons l c ih =>
    cases m with
    | nulo => simp [Sala.em] at h
    | sala n e0 d0 p s0 =>
      cases l with
      | esquerda => simpa [Sala.limparPista, Sala.em] using ih e0 (by simpa [Sala.em] using h)
      | direita => simpa [Sala.limparPista, Sala.em] using ih d0 (by simpa [Sala.em] using h)

theorem pistaEm_limparPista_self (m : Sala) (c : List Lado) :
    (m.limparPista c).pistaEm c = [] := by
  induction c generalizing m with
  | nil => cases m <;> simp [Sala.limparPista, Sala.pistaEm, Sala.em]
  | cons l c ih =>
    cases m with
    | nulo => simp [Sala.limparPista, Sala.pistaEm, Sala.em]
    | sala n e0 d0 p s0 =>
      cases l with
      | esquerda => simpa [Sala.limparPista, Sala.pistaEm, Sala.em] using ih e0
      | direita => simpa [Sala.limparPista, Sala.pistaEm, Sala.em] using ih d0

theorem pistaEm_limparPista_ne (m : Sala) (c c2 : List Lado) (h : c2 ≠ c) :
    (m.limparPista c).pistaEm c2 = m.pistaEm c2 := by
  induction c generalizing m c2 with
  | nil =>
    cases m with
    | nulo => rfl
    | sala n e0 d0 p s0 =>
      cases c2 with
      | nil => exact absurd rfl h
      | cons l2 c2 => cases l2 <;> rfl
  | cons l c ih =>
    cases m with
    | nulo => rfl
    | sala n e0 d0 p s0 =>
      cases c2 with
      | nil => cases l <;> rfl
      | cons l2 c2 =>
        cases l <;> cases l2
        · exact ih e0 c2 (fun e => h (by rw [e]))
        · rfl
        · rfl
        · exact ih d0 c2 (fun e => h (by rw [e]))

theorem pistaEm_limparPista_vazia (m : Sala) (c c2 : List Lado) (h : m.pistaEm c2 = []) :
    (m.limparPista c).pistaEm c2 = [] := by
  by_cases hc : c2 = c
  · rw [hc]; exact pistaEm_limparPista_self m c
  · rw [pistaEm_limparPista_ne m c c2 hc]; exact h

theorem navegar_campos (s : Sessao) :
    (navegar s).raizPistas = s.raizPistas ∧ (navegar s).tabelaHash = s.tabelaHash ∧
      (navegar s).mansao = s.mansao := by
  unfold navegar
  repeat' split
  all_goals exact ⟨rfl, rfl, rfl⟩

theorem encontrarPista_vazia (charSigned : Bool) (s : Sessao)
    (h : s.mansao.pistaEm s.salaAtual = []) : encontrarPista charSigned s = s := by
  unfold encontrarPista
  unfold Sala.pistaEm at h
  split
  · rfl
  · rename_i heq
    rw [heq] at h
    simp only at h
    rw [h]
    simp [strlen]

theorem encontrarPista_mansao (charSigned : Bool) (s : Sessao) :
    (encontrarPista charSigned s).mansao = s.mansao ∨
      (encontrarPista charSigned s).mansao = s.mansao.limparPista s.salaAtual := by
  unfold encontrarPista
  split
  · exact Or.inl rfl
  · rename_i n e d p su heq
    by_cases hl : strlen p > 0
    · rw [if_pos hl]; exact Or.inr rfl
    · rw [if_neg hl]; exact Or.inl rfl

theorem iteracao_vazia (charSigned : Bool) (s : Sessao)
    (h : s.mansao.pistaEm s.salaAtual = []) :
    (iteracao charSigned s).raizPistas = s.raizPistas ∧
      (iteracao charSigned s).tabelaHash = s.tabelaHash ∧
      (iteracao charSigned s).mansao = s.mansao := by
  unfold iteracao
  split_ifs
  · exact ⟨rfl, rfl, rfl⟩
  · rw [encontrarPista_vazia charSigned s h]
    exact navegar_campos s

theorem iteracao_pistaEm_vazia (charSigned : Bool) (s : Sessao) (c : List Lado)
    (h : s.mansao.pistaEm c = []) : (iteracao charSigned s).mansao.pistaEm c = [] := by
  unfold iteracao
  split_ifs
  · exact h
  · rw [(navegar_campos _).2.2]
    rcases encontrarPista_mansao charSigned s with h1 | h1
    · rw [h1]; exact h
    · rw [h1]; exact pistaEm_limparPista_vazia _ _ _ h

theorem iterar_pistaEm_vazia (charSigned : Bool) (n : Nat) (s : Sessao) (c : List Lado)
    (h : s.mansao.pistaEm c = []) : (iterar charSigned n s).mansao.pistaEm c = [] := by
  induction n generalizing s with
  | zero => exact h
  | succ n ih => exact ih _ (iteracao_pistaEm_vazia charSigned s c h)

theorem encontrarPista_cheia (charSigned : Bool) (s : Sessao) (nome : CStr) (e d : Sala)
    (pista suspeito : CStr) (hsala : s.mansao.em s.salaAtual = .sala nome e d pista suspeito)
    (hpista : pista ≠ []) :
    (encontrarPista charSigned s).raizPistas = inserirPista s.raizPistas pista ∧
    (encontrarPista charSigned s).tabelaHash =
      (if suspeito = [] then s.tabelaHash
        else inserirNaHash charSigned s.tabelaHash pista suspeito) ∧
    (encontrarPista charSigned s).mansao = s.mansao.limparPista s.salaAtual := by
  have hlen : strlen pista > 0 := List.length_pos.2 hpista
  simp only [encontrarPista, hsala]
  rw [if_pos hlen]
  refine ⟨rfl, ?_, rfl⟩
  by_cases hs : suspeito = []
  · simp [hs, strlen]
  · have : strlen suspeito > 0 := List.length_pos.2 hs
    simp [hs, this]

/-- C10: in a session that has not ended, the visit to a room holding a non-empty clue inserts
the clue into the clue tree, inserts the pair into the ledger exactly when the suspect is not
empty, and empties the clue of that room, of that room only. A visit to a room whose clue is
empty changes neither the tree, nor the ledger, nor the rooms; an empty clue stays empty through
every iteration; and after the first visit every later iteration at the same room, however many
iterations lie in between, changes neither the tree, nor the ledger, nor the rooms. -/
theorem coleta_unica (charSigned : Bool) (s : Sessao) (nome : CStr) (e d : Sala)
    (pista suspeito : CStr) (hfim : s.encerrada = false)
    (hsala : s.mansao.em s.salaAtual = .sala nome e d pista suspeito) (hpista : pista ≠ []) :
    (iteracao charSigned s).raizPistas = inserirPista s.raizPistas pista ∧
    (iteracao charSigned s).tabelaHash =
      (if suspeito = [] then s.tabelaHash
        else inserirNaHash charSigned s.tabelaHash pista suspeito) ∧
    (iteracao charSigned s).mansao = s.mansao.limparPista s.salaAtual ∧
    (iteracao charSigned s).mansao.em s.salaAtual = .sala nome e d [] suspeito ∧
    (∀ c, c ≠ s.salaAtual → (iteracao charSigned s).mansao.pistaEm c = s.mansao.pistaEm c) ∧
    (∀ s2 : Sessao, s2.mansao.pistaEm s2.salaAtual = [] →
      (iteracao charSigned s2).raizPistas = s2.raizPistas ∧
      (iteracao charSigned s2).tabelaHash = s2.tabelaHash ∧
      (iteracao charSigned s2).mansao = s2.mansao) ∧
    (∀ (s2 : Sessao) (c : List Lado), s2.mansao.pistaEm c = [] →
      (iteracao charSigned s2).mansao.pistaEm c = []) ∧
    ∀ n : Nat, (iterar charSigned n (iteracao charSigned s)).salaAtual = s.salaAtual →
      (iteracao charSigned (iterar charSigned n (iteracao charSigned s))).raizPistas =
        (iterar charSigned n (iteracao charSigned s)).raizPistas ∧
      (iteracao charSigned (iterar charSigned n (iteracao charSigned s))).tabelaHash =
        (iterar charSigned n (iteracao charSigned s)).tabelaHash ∧
      (iteracao charSigned (iterar charSigned n (iteracao charSigned s))).mansao =
        (iterar charSigned n (iteracao charSigned s)).mansao := by
  obtain ⟨h1, h2, h3⟩ := encontrarPista_cheia charSigned s nome e d pista suspeito hsala hpista
  have hit : iteracao charSigned s = navegar (encontrarPista charSigned s) := by
    unfold iteracao
    rw [if_neg (by rw [hfim]; exact Bool.false_ne_true)]
  obtain ⟨n1, n2, n3⟩ := navegar_campos (encontrarPista charSigned s)
  have hm : (iteracao charSigned s).mansao = s.mansao.limparPista s.salaAtual := by
    rw [hit, n3, h3]
  refine ⟨by rw [hit, n1, h1], by rw [hit, n2, h2], hm, ?_, ?_, ?_, ?_, ?_⟩
  · rw [hm]; exact em_limparPista_self _ _ _ _ _ _ _ hsala
  · intro c hc
    rw [hm]; exact pistaEm_limparPista_ne _ _ _ hc
  · intro s2 h
    exact iteracao_vazia charSigned s2 h
  · intro s2 c h
    exact iteracao_pistaEm_vazia charSigned s2 c h
  · intro n hn
    apply iteracao_vazia
    rw [hn]
    apply iterar_pistaEm_vazia
    rw [hm]
    exact pistaEm_limparPista_self _ _

/-- Witness for C10: the first visit to `Biblioteca` in the mansion of `main`. -/
theorem coleta_unica_witness :
    (iteracao true ⟨mansaoPrincipal, [.esquerda, .esquerda], .nulo, inicializarTabelaHash,
      ['s'], false⟩).raizPistas = inserirPista .nulo (cstr "Carta Amassada") :=
  (coleta_unica true ⟨mansaoPrincipal, [.esquerda, .esquerda], .nulo, inicializarTabelaHash,
    ['s'], false⟩ (cstr "Biblioteca") .nulo .nulo (cstr "Carta Amassada") (cstr "Mordomo")
    rfl (by decide) (by decide)).1

/-! ## Claims on the clue tree and the table, continued -/

/-- C14: the empty clue tree is ordered and `inserirPista` of a clue that fits the clue field
(fewer than `PISTA_MAX` bytes) keeps a tree ordered, so every tree built by inserting such clues
has, at every node, only smaller clues on the left and only greater clues on the right (byte-wise
lexicographic order), no clue occurs twice in it, and every clue in it fits the clue field. -/
theorem arvore_ordenada (pistas : List CStr) (hcabe : ∀ p ∈ pistas, strlen p < PISTA_MAX) :
    ordenada .nulo ∧
    (∀ (t : PistaNode) (c : CStr), ordenada t → strlen c < PISTA_MAX →
      ordenada (inserirPista t c)) ∧
    ordenada (inserirPistas pistas) ∧
    (mostrarPistasEmOrdem (inserirPistas pistas)).Nodup ∧
    ∀ x ∈ mostrarPistasEmOrdem (inserirPistas pistas), strlen x < PISTA_MAX :=
  ⟨trivial, fun t c h _ => ordenada_inserirPista t c h, ordenada_inserirPistas pistas,
    List.Pairwise.imp (fun h => lexLt_ne h)
      (sorted_of_ordenada _ (ordenada_inserirPistas pistas)),
    fun x hx => hcabe x ((mem_inserirPistas pistas x).1 hx)⟩

/-- Witness for C14: one more insertion into a tree of two clues. -/
theorem arvore_ordenada_witness :
    (∀ p ∈ [cstr "Pegada", cstr "Faca"], strlen p < PISTA_MAX) ∧
    strlen (cstr "Terra") < PISTA_MAX ∧
    ordenada (inserirPista (inserirPistas [cstr "Pegada", cstr "Faca"]) (cstr "Terra")) :=
  ⟨by decide, by decide,
    (arvore_ordenada [cstr "Pegada", cstr "Faca"] (by decide)).2.1 _ (cstr "Terra")
      (arvore_ordenada [cstr "Pegada", cstr "Faca"] (by decide)).2.2.1 (by decide)⟩

/-- C15: on a table of `TAM_HASH` slots, for a clue and a suspect that fit their fields (fewer
than `PISTA_MAX` and `SUSPEITO_MAX` bytes), `inserirNaHash` puts the new entry at the head of
the chain of slot `funcaoHash(pista)`, in front of the chain as it was, and leaves every other
slot as it is; an identical entry already there does not stop it, a second call adds a second
one. -/
theorem inserirNaHash_um_balde (charSigned : Bool) (t : Tabela) (pista suspeito : CStr)
    (ht : t.length = TAM_HASH) (hpista : strlen pista < PISTA_MAX)
    (hsuspeito : strlen suspeito < SUSPEITO_MAX) :
    (inserirNaHash charSigned t pista suspeito).length = TAM_HASH ∧
    (∀ e ∈ (balde (inserirNaHash charSigned t pista suspeito)
        (funcaoHash charSigned pista)).head?,
      strlen e.pista < PISTA_MAX ∧ strlen e.suspeito < SUSPEITO_MAX) ∧
    balde (inserirNaHash charSigned t pista suspeito) (funcaoHash charSigned pista) =
      ⟨pista, suspeito⟩ :: balde t (funcaoHash charSigned pista) ∧
    (∀ i, i ≠ funcaoHash charSigned pista →
      balde (inserirNaHash charSigned t pista suspeito) i = balde t i) ∧
    balde (inserirNaHash charSigned (inserirNaHash charSigned t pista suspeito) pista suspeito)
        (funcaoHash charSigned pista) =
      ⟨pista, suspeito⟩ :: ⟨pista, suspeito⟩ :: balde t (funcaoHash charSigned pista) := by
  have hl : (inserirNaHash charSigned t pista suspeito).length = TAM_HASH := by
    rw [length_inserirNaHash]; exact ht
  refine ⟨hl, ?_, ?_, ?_, ?_⟩
  · intro e he
    rw [balde_inserirNaHash _ _ _ _ _ ht, if_pos rfl] at he
    simp only [List.head?_cons, Option.mem_def, Option.some.injEq] at he
    subst he
    exact ⟨hpista, hsuspeito⟩
  · rw [balde_inserirNaHash _ _ _ _ _ ht, if_pos rfl]
  · intro i hi
    rw [balde_inserirNaHash _ _ _ _ _ ht, if_neg (fun e => hi e.symm)]
  · rw [balde_inserirNaHash _ _ _ _ _ hl, if_pos rfl, balde_inserirNaHash _ _ _ _ _ ht,
      if_pos rfl]

/-- Witness for C15: an insertion into the freshly initialised table. -/
theorem inserirNaHash_um_balde_witness :
    inicializarTabelaHash.length = TAM_HASH ∧
    strlen (cstr "Faca de Prata") < PISTA_MAX ∧ strlen (cstr "Cozinheiro") < SUSPEITO_MAX ∧
    balde (inserirNaHash true inicializarTabelaHash (cstr "Faca de Prata") (cstr "Cozinheiro"))
        (funcaoHash true (cstr "Faca de Prata")) =
      ⟨cstr "Faca de Prata", cstr "Cozinheiro"⟩ ::
        balde inicializarTabelaHash (funcaoHash true (cstr "Faca de Prata")) :=
  ⟨by decide, by decide, by decide,
    (inserirNaHash_um_balde true inicializarTabelaHash (cstr "Faca de Prata")
      (cstr "Cozinheiro") (by decide) (by decide) (by decide)).2.2.1⟩

/-- C16: a table built by `inserirNaHash` calls on a freshly initialised table, with clues and
suspects that fit their fields (fewer than `PISTA_MAX` and `SUSPEITO_MAX` bytes), always has 10
slots, and every entry found in the chain of slot `i` has a clue that `funcaoHash` sends
to `i` and fits its fields. -/
theorem invariante_baldes (charSigned : Bool) (pares : List (CStr × CStr))
    (hcabe : ∀ par ∈ pares, strlen par.1 < PISTA_MAX ∧ strlen par.2 < SUSPEITO_MAX) :
    (inserirTodos charSigned pares).length = 10 ∧
    ∀ (i : Nat) (e : HashNode), e ∈ balde (inserirTodos charSigned pares) i →
      funcaoHash charSigned e.pista = i ∧
      strlen e.pista < PISTA_MAX ∧ strlen e.suspeito < SUSPEITO_MAX := by
  refine ⟨length_inserirTodos charSigned pares, ?_⟩
  intro i e he
  rw [balde_inserirTodos] at he
  obtain ⟨par, hpar, rfl⟩ := List.mem_map.1 he
  have hf := List.mem_filter.1 (List.mem_reverse.1 hpar)
  exact ⟨by simpa using hf.2, hcabe par hf.1⟩

/-- Witness for C16: the entry found in slot 2 after two insertions. -/
theorem invariante_baldes_witness :
    (∀ par ∈ [(cstr "Carta Amassada", cstr "Mordomo"), (cstr "Faca de Prata", cstr "Cozinheiro")],
      strlen par.1 < PISTA_MAX ∧ strlen par.2 < SUSPEITO_MAX) ∧
    funcaoHash true (cstr "Faca de Prata") = 2 :=
  ⟨by decide,
    ((invariante_baldes true [(cstr "Carta Amassada", cstr "Mordomo"),
      (cstr "Faca de Prata", cstr "Cozinheiro")] (by decide)).2 2
      ⟨cstr "Faca de Prata", cstr "Cozinheiro"⟩ (by decide)).1⟩

/-! ## The exploration loop, continued -/

theorem em_nil (m : Sala) : m.em [] = m := by
  cases m <;> rfl

theorem encontrarPista_outros (charSigned : Bool) (s : Sessao) :
    (encontrarPista charSigned s).salaAtual = s.salaAtual ∧
    (encontrarPista charSigned s).entrada = s.entrada ∧
    (encontrarPista charSigned s).encerrada = s.encerrada := by
  unfold encontrarPista
  split
  · exact ⟨rfl, rfl, rfl⟩
  · rename_i n e d p su heq
    by_cases hl : strlen p > 0
    · rw [if_pos hl]; exact ⟨rfl, rfl, rfl⟩
    · rw [if_neg hl]; exact ⟨rfl, rfl, rfl⟩

theorem encontrarPista_em (charSigned : Bool) (s : Sessao) (nome : CStr) (e d : Sala)
    (pista suspeito : CStr) (hsala : s.mansao.em s.salaAtual = .sala nome e d pista suspeito) :
    ∃ p, (encontrarPista charSigned s).mansao.em s.salaAtual = .sala nome e d p suspeito ∧
      (p = pista ∨ p = []) := by
  rcases encontrarPista_mansao charSigned s with h | h
  · exact ⟨pista, by rw [h]; exact hsala, Or.inl rfl⟩
  · exact ⟨[], by rw [h]; exact em_limparPista_self _ _ _ _ _ _ _ hsala, Or.inr rfl⟩

theorem navegar_folha (s : Sessao) (nome pista suspeito : CStr)
    (hsala : s.mansao.em s.salaAtual = .sala nome .nulo .nulo pista suspeito) :
    navegar s = { s with salaAtual := [] } := by
  simp [navegar, hsala, Sala.nula]

theorem iteracao_folha (charSigned : Bool) (s : Sessao) (nome pista suspeito : CStr)
    (hfim : s.encerrada = false)
    (hsala : s.mansao.em s.salaAtual = .sala nome .nulo .nulo pista suspeito) :
    iteracao charSigned s = { encontrarPista charSigned s with salaAtual := [] } := by
  obtain ⟨p, hp, _⟩ := encontrarPista_em charSigned s nome .nulo .nulo pista suspeito hsala
  obtain ⟨h1, _, _⟩ := encontrarPista_outros charSigned s
  unfold iteracao
  rw [if_neg (by rw [hfim]; exact Bool.false_ne_true)]
  exact navegar_folha _ nome p suspeito (by rw [h1]; exact hp)

/-- C12: at a room without children, an iteration of a session that has not ended performs
the clue block for that room and then moves to the root; no command is read, the input is left
as it was, and the session goes on. -/
theorem fim_de_caminho (charSigned : Bool) (s : Sessao) (nome pista suspeito : CStr)
    (hfim : s.encerrada = false)
    (hsala : s.mansao.em s.salaAtual = .sala nome .nulo .nulo pista suspeito) :
    iteracao charSigned s = { encontrarPista charSigned s with salaAtual := [] } ∧
    (iteracao charSigned s).salaAtual = [] ∧
    (iteracao charSigned s).entrada = s.entrada ∧
    (iteracao charSigned s).encerrada = false := by
  have h := iteracao_folha charSigned s nome pista suspeito hfim hsala
  obtain ⟨_, h2, h3⟩ := encontrarPista_outros charSigned s
  refine ⟨h, by rw [h], by rw [h]; exact h2, by rw [h]; exact h3.trans hfim⟩

/-- Witness for C12: at `Biblioteca`, with the command `s` waiting in the input. -/
theorem fim_de_caminho_witness :
    (iteracao true ⟨mansaoPrincipal, [.esquerda, .esquerda], .nulo, inicializarTabelaHash,
      ['s'], false⟩).salaAtual = [] ∧
    (iteracao true ⟨mansaoPrincipal, [.esquerda, .esquerda], .nulo, inicializarTabelaHash,
      ['s'], false⟩).entrada = ['s'] :=
  ⟨(fim_de_caminho true ⟨mansaoPrincipal, [.esquerda, .esquerda], .nulo, inicializarTabelaHash,
      ['s'], false⟩ (cstr "Biblioteca") (cstr "Carta Amassada") (cstr "Mordomo") rfl
      (by decide)).2.1,
    (fim_de_caminho true ⟨mansaoPrincipal, [.esquerda, .esquerda], .nulo, inicializarTabelaHash,
      ['s'], false⟩ (cstr "Biblioteca") (cstr "Carta Amassada") (cstr "Mordomo") rfl
      (by decide)).2.2.1⟩

theorem navegar_sem_efeito (s : Sessao) (nome : CStr) (e d : Sala) (pista suspeito : CStr)
    (escolha : Char) (resto : List Char)
    (hsala : s.mansao.em s.salaAtual = .sala nome e d pista suspeito)
    (hfolha : ¬ (e.nula = true ∧ d.nula = true))
    (hler : lerEscolha s.entrada = some (escolha, resto))
    (hcmd : (escolha = 'e' ∧ e.nula = true) ∨ (escolha = 'd' ∧ d.nula = true) ∨
      (escolha ≠ 'e' ∧ escolha ≠ 'd' ∧ escolha ≠ 's')) :
    navegar s = { s with entrada := resto } := by
  have hes : ('e' : Char) ≠ 's' := by decide
  have hds : ('d' : Char) ≠ 's' := by decide
  have hde : ('d' : Char) ≠ 'e' := by decide
  simp only [navegar, hsala, hler, if_neg hfolha]
  rcases hcmd with ⟨rfl, h⟩ | ⟨rfl, h⟩ | ⟨h1, h2, h3⟩
  · simp [hes, h]
  · simp [hds, hde, h]
  · simp [h1, h2, h3]

/-- C13: in a session that has not ended, at a room with a child and an empty clue, the command
`e` with no left child, the command `d` with no right child and every command other than `e`,
`d` and `s` only use up the command: the current room, the rooms, the clue tree and the ledger
stay as they were and the session goes on. -/
theorem comando_sem_efeito (charSigned : Bool) (s : Sessao) (nome : CStr) (e d : Sala)
    (suspeito : CStr) (escolha : Char) (resto : List Char)
    (hfim : s.encerrada = false)
    (hsala : s.mansao.em s.salaAtual = .sala nome e d [] suspeito)
    (hfolha : ¬ (e.nula = true ∧ d.nula = true))
    (hler : lerEscolha s.entrada = some (escolha, resto))
    (hcmd : (escolha = 'e' ∧ e.nula = true) ∨ (escolha = 'd' ∧ d.nula = true) ∨
      (escolha ≠ 'e' ∧ escolha ≠ 'd' ∧ escolha ≠ 's')) :
    iteracao charSigned s = { s with entrada := resto } ∧
    (iteracao charSigned s).salaAtual = s.salaAtual ∧
    (iteracao charSigned s).mansao = s.mansao ∧
    (iteracao charSigned s).raizPistas = s.raizPistas ∧
    (iteracao charSigned s).tabelaHash = s.tabelaHash ∧
    (iteracao charSigned s).encerrada = false := by
  have hv : s.mansao.pistaEm s.salaAtual = [] := by
    simp [Sala.pistaEm, hsala]
  have h : iteracao charSigned s = { s with entrada := resto } := by
    unfold iteracao
    rw [if_neg (by rw [hfim]; exact Bool.false_ne_true), encontrarPista_vazia charSigned s hv]
    exact navegar_sem_efeito s nome e d [] suspeito escolha resto hsala hfolha hler hcmd
  refine ⟨h, by rw [h], by rw [h], by rw [h], by rw [h], by rw [h]; exact hfim⟩

/-- Witness for C13: at `Cozinha`, which has no right child, with its clue already collected,
the command `d`. -/
theorem comando_sem_efeito_witness :
    (iteracao true ⟨mansaoPrincipal.limparPista [.esquerda, .direita], [.esquerda, .direita],
      .nulo, inicializarTabelaHash, ['d', 's'], false⟩).salaAtual = [.esquerda, .direita] :=
  (comando_sem_efeito true ⟨mansaoPrincipal.limparPista [.esquerda, .direita],
    [.esquerda, .direita], .nulo, inicializarTabelaHash, ['d', 's'], false⟩ (cstr "Cozinha")
    (.sala (cstr "Sala de Jantar") .nulo .nulo (cstr "Faca de Prata") (cstr "Cozinheiro")) .nulo
    (cstr "Cozinheiro") 'd' ['s'] rfl (by decide) (by decide) (by decide) (by decide)).2.1

theorem iterar_raiz_folha (charSigned : Bool) (nome suspeito : CStr) (n : Nat) (s : Sessao)
    (hfim : s.encerrada = false) (hat : s.salaAtual = [])
    (hm : ∃ p, s.mansao = .sala nome .nulo .nulo p suspeito) :
    (iterar charSigned n s).encerrada = false ∧ (iterar charSigned n s).entrada = s.entrada ∧
    (iterar charSigned n s).salaAtual = [] ∧
    ∃ p, (iterar charSigned n s).mansao = .sala nome .nulo .nulo p suspeito := by
  induction n generalizing s with
  | zero => exact ⟨hfim, rfl, hat, hm⟩
  | succ n ih =>
    obtain ⟨p, hp⟩ := hm
    have hsala : s.mansao.em s.salaAtual = .sala nome .nulo .nulo p suspeito := by
      rw [hat, hp]; rfl
    have hit := iteracao_folha charSigned s nome p suspeito hfim hsala
    obtain ⟨o1, o2, o3⟩ := encontrarPista_outros charSigned s
    obtain ⟨q, hq, _⟩ := encontrarPista_em charSigned s nome .nulo .nulo p suspeito hsala
    rw [hat] at hq
    have := ih (iteracao charSigned s) (by rw [hit]; exact o3.trans hfim) (by rw [hit])
      ⟨q, by rw [hit]; exact (em_nil _).symm.trans hq⟩
    have he : (iteracao charSigned s).entrada = s.entrada := by rw [hit]; exact o2
    rw [he] at this
    exact this

/-- C19: when the root room has no children, the session never ends and never reads a command:
after any number of iterations, whatever the input (a leading `s` included), the session has
not ended, the input is untouched, the current room is the root and the root still has no
children, so the next iteration takes the dead-end branch again. -/
theorem raiz_sem_filhos (charSigned : Bool) (nome pista suspeito : CStr) (raizPistas : PistaNode)
    (tabelaHash : Tabela) (entrada : List Char) (n : Nat) :
    (iterar charSigned n (sessaoInicial (.sala nome .nulo .nulo pista suspeito) raizPistas
      tabelaHash entrada)).encerrada = false ∧
    (iterar charSigned n (sessaoInicial (.sala nome .nulo .nulo pista suspeito) raizPistas
      tabelaHash entrada)).entrada = entrada ∧
    (iterar charSigned n (sessaoInicial (.sala nome .nulo .nulo pista suspeito) raizPistas
      tabelaHash entrada)).salaAtual = [] ∧
    ∃ p, (iterar charSigned n (sessaoInicial (.sala nome .nulo .nulo pista suspeito) raizPistas
      tabelaHash entrada)).mansao = .sala nome .nulo .nulo p suspeito :=
  iterar_raiz_folha charSigned nome suspeito n _ rfl rfl ⟨pista, rfl⟩

theorem iteracao_encerrada (charSigned : Bool) (s : Sessao) (h : s.encerrada = true) :
    iteracao charSigned s = s := by
  unfold iteracao
  rw [if_pos h]

theorem iterar_encerrada (charSigned : Bool) (n : Nat) (s : Sessao) (h : s.encerrada = true) :
    iterar charSigned n s = s := by
  induction n with
  | zero => rfl
  | succ n ih => rw [iterar, iteracao_encerrada charSigned s h, ih]

theorem iterar_add (charSigned : Bool) (m n : Nat) (s : Sessao) :
    iterar charSigned (m + n) s = iterar charSigned n (iterar charSigned m s) := by
  induction m generalizing s with
  | zero => simp [iterar]
  | succ m ih => rw [Nat.succ_add, iterar, ih, iterar]

/-- C11: on the mansion of `main` with the commands `e`, `e`, `e`, `s`, the second command leads
to `Biblioteca`, whose clue is collected there before the session is back at the root; the third
command leads to `Escritorio` and the fourth ends the session after five iterations, for good.
The clue list is then `Carta Amassada` alone, the ledger holds the single entry `Carta Amassada`
for `Mordomo` (under slot 8), and the verdict names `Mordomo` with count 1. -/
theorem sessao_biblioteca (charSigned : Bool) (n : Nat) :
    (iterar charSigned 2 (sessaoPrincipal ['e', 'e', 'e', 's'])).salaAtual =
      [.esquerda, .esquerda] ∧
    (iterar charSigned 2 (sessaoPrincipal ['e', 'e', 'e', 's'])).raizPistas = .nulo ∧
    (iterar charSigned 3 (sessaoPrincipal ['e', 'e', 'e', 's'])).salaAtual = [] ∧
    mostrarPistasEmOrdem (iterar charSigned 3 (sessaoPrincipal ['e', 'e', 'e', 's'])).raizPistas =
      [cstr "Carta Amassada"] ∧
    (iterar charSigned 3 (sessaoPrincipal ['e', 'e', 'e', 's'])).entrada = ['e', 's'] ∧
    (iterar charSigned 4 (sessaoPrincipal ['e', 'e', 'e', 's'])).encerrada = false ∧
    (iterar charSigned 5 (sessaoPrincipal ['e', 'e', 'e', 's'])).encerrada = true ∧
    iterar charSigned (5 + n) (sessaoPrincipal ['e', 'e', 'e', 's']) =
      iterar charSigned 5 (sessaoPrincipal ['e', 'e', 'e', 's']) ∧
    mostrarPistasEmOrdem (iterar charSigned 5 (sessaoPrincipal ['e', 'e', 'e', 's'])).raizPistas =
      [cstr "Carta Amassada"] ∧
    mostrarAssociacoes (iterar charSigned 5 (sessaoPrincipal ['e', 'e', 'e', 's'])).tabelaHash =
      [(8, ⟨cstr "Carta Amassada", cstr "Mordomo"⟩)] ∧
    encontrarCulpado (iterar charSigned 5 (sessaoPrincipal ['e', 'e', 'e', 's'])).tabelaHash =
      some (cstr "Mordomo", 1) := by
  have h5 : (iterar charSigned 5 (sessaoPrincipal ['e', 'e', 'e', 's'])).encerrada = true := by
    cases charSigned <;> decide
  refine ⟨?_, ?_, ?_, ?_, ?_, ?_, h5, ?_, ?_, ?_, ?_⟩
  · cases charSigned <;> decide
  · cases charSigned <;> decide
  · cases charSigned <;> decide
  · cases charSigned <;> decide
  · cases charSigned <;> decide
  · cases charSigned <;> decide
  · rw [iterar_add]; exact iterar_encerrada charSigned n _ h5
  · cases charSigned <;> decide
  · cases charSigned <;> decide
  · cases charSigned <;> decide

/-! ## The capacity of the tally -/

theorem indiceSuspeito_lt (T : List ContadorSuspeito) (x : CStr) (j : Nat)
    (h : indiceSuspeito T x = some j) : j < T.length := by
  induction T generalizing j with
  | nil => simp [indiceSuspeito] at h
  | cons c T ih =>
    simp only [indiceSuspeito] at h
    split_ifs at h with h0
    · simp only [Option.some.injEq] at h
      subst h
      simp
    · obtain ⟨k, hk, rfl⟩ := Option.map_eq_some'.1 h
      have := ih k hk
      simp only [List.length_cons]
      omega

theorem indiceSuspeito_isSome (T : List ContadorSuspeito) (x : CStr) :
    (indiceSuspeito T x).isSome = (procurarSuspeito T x).2 := by
  induction T with
  | nil => rfl
  | cons c T ih =>
    simp only [indiceSuspeito, procurarSuspeito]
    split_ifs with h0
    · rfl
    · simp only [Option.isSome_map']
      exact ih

theorem indiceEscrito_lt (T : List ContadorSuspeito) (e : HashNode) (k : Nat)
    (hT : T.length ≤ 20) (h : indiceEscrito T e = some k) : k < 20 := by
  unfold indiceEscrito at h
  split at h
  · rename_i j hj
    simp only [Option.some.injEq] at h
    subst h
    have := indiceSuspeito_lt T _ _ hj
    omega
  · split_ifs at h with hl
    simp only [Option.some.injEq] at h
    omega

theorem procurarSuspeito_nomes (T : List ContadorSuspeito) (x : CStr) :
    (procurarSuspeito T x).1.map ContadorSuspeito.nome = T.map ContadorSuspeito.nome := by
  induction T with
  | nil => rfl
  | cons c T ih =>
    simp only [procurarSuspeito]
    split_ifs with h0
    · rfl
    · simp only [List.map_cons, ih]

theorem contarNode_cheia (T : List ContadorSuspeito) (e : HashNode) (hT : 20 ≤ T.length) :
    (contarNode T e).map ContadorSuspeito.nome = T.map ContadorSuspeito.nome := by
  have hn := procurarSuspeito_nomes T e.suspeito
  have hl : (procurarSuspeito T e.suspeito).1.length = T.length := by
    have := congrArg List.length hn
    simpa using this
  unfold contarNode
  simp only
  rw [if_neg (by rw [hl]; omega)]
  exact hn

theorem foldl_contarNode_cheia (es : List HashNode) (T : List ContadorSuspeito)
    (hT : 20 ≤ T.length) :
    (es.foldl contarNode T).map ContadorSuspeito.nome = T.map ContadorSuspeito.nome := by
  induction es generalizing T with
  | nil => rfl
  | cons e es ih =>
    have h1 := contarNode_cheia T e hT
    have hl : 20 ≤ (contarNode T e).length := by
      have := congrArg List.length h1
      simp only [List.length_map] at this
      omega
    rw [List.foldl_cons, ih _ hl, h1]

theorem encontrarCulpado_mem (t : Tabela) (s : CStr) (n : Nat)
    (h : encontrarCulpado t = some (s, n)) :
    ∃ c ∈ contarTabela t, c.nome = s ∧ c.contagem = n := by
  unfold encontrarCulpado at h
  split at h
  · exact Option.noConfusion h
  · rename_i c0 resto hT
    obtain ⟨A, w, B, hsplit, hres, _, _⟩ := maiorContagem_split c0 resto
    rw [hres] at h
    simp only [Option.some.injEq, Prod.mk.injEq] at h
    exact ⟨w, by rw [hT, hsplit]; simp, h.1, h.2⟩

theorem talha_fora (t : Tabela) (A B : List CStr) (x : CStr)
    (hL : suspeitos t = A ++ x :: B) (hx : x ∉ A) (hA : 20 ≤ A.dedup.length) :
    ∀ c ∈ contarTabela t, c.nome ≠ x := by
  unfold suspeitos at hL
  obtain ⟨E1, E2, hE, h1, h2⟩ := List.map_eq_append_iff.1 hL
  have hJ : TalhaOk A (E1.foldl contarNode []) := by
    have := talhaOk_foldl E1 talhaOk_nil
    simpa [h1] using this
  have hfull : 20 ≤ (E1.foldl contarNode []).length := by
    by_contra hlt
    have hlt2 : (E1.foldl contarNode []).length < 20 := by omega
    have hsub : A.dedup ⊆ (E1.foldl contarNode []).map ContadorSuspeito.nome := by
      intro y hy
      exact hJ.todos hlt2 y (List.mem_dedup.1 hy)
    have := (List.subperm_of_subset (List.nodup_dedup A) hsub).length_le
    simp only [List.length_map] at this
    omega
  have hnames : (contarTabela t).map ContadorSuspeito.nome =
      (E1.foldl contarNode []).map ContadorSuspeito.nome := by
    rw [contarTabela_eq, hE, List.foldl_append]
    exact foldl_contarNode_cheia _ _ hfull
  intro c hc hcx
  have hmem : c.nome ∈ (E1.foldl contarNode []).map ContadorSuspeito.nome := by
    rw [← hnames]; exact List.mem_map_of_mem _ hc
  obtain ⟨c1, hc1, hc1n⟩ := List.mem_map.1 hmem
  have := (hJ.conta c1 hc1).2
  rw [hc1n, hcx] at this
  exact hx this


/-- C17: in `encontrarCulpado` the tally never holds more than 20 suspects, and each entry of
the ledger makes the loop write the tally at an index below 20 or not at all. A suspect first
met after 20 other distinct suspects, in the order of the slots and chains, has no counter:
every counter holds the citations of its own name only, so the entries of that suspect are
counted for nobody and the verdict never names it. -/
theorem talha_limitada (t : Tabela) :
    (contarTabela t).length ≤ 20 ∧
    (∀ (antes : List HashNode) (atual : HashNode) (depois : List HashNode) (k : Nat),
      entradas t = antes ++ atual :: depois →
        (antes.foldl contarNode []).length ≤ 20 ∧
        (indiceEscrito (antes.foldl contarNode []) atual = some k → k < 20)) ∧
    (∀ c ∈ contarTabela t, c.contagem = citacoes t c.nome) ∧
    (∀ (A B : List CStr) (x : CStr), suspeitos t = A ++ x :: B → x ∉ A → 20 ≤ A.dedup.length →
      (∀ c ∈ contarTabela t, c.nome ≠ x) ∧ ∀ n, encontrarCulpado t ≠ some (x, n)) := by
  refine ⟨(talhaOk_contarTabela t).cabe, ?_, ?_, ?_⟩
  · intro antes atual depois k _
    have hJ := talhaOk_foldl antes talhaOk_nil
    exact ⟨hJ.cabe, indiceEscrito_lt _ _ _ hJ.cabe⟩
  · intro c hc
    rw [citacoes_eq]
    exact ((talhaOk_contarTabela t).conta c hc).1
  · intro A B x hL hx hA
    have h := talha_fora t A B x hL hx hA
    refine ⟨h, ?_⟩
    intro n hn
    obtain ⟨c, hc, hcn, _⟩ := encontrarCulpado_mem t x n hn
    exact h c hc hcn

/-- Witness for C17: in the ledger `vinteEDois`, `Zeca` is first met after 20 other suspects and
is not named. -/
theorem talha_limitada_witness :
    suspeitos (inserirTodos true vinteEDois) =
      (suspeitos (inserirTodos true vinteEDois)).take 20 ++ cstr "Zeca" :: [cstr "Zeca"] ∧
    ∀ n, encontrarCulpado (inserirTodos true vinteEDois) ≠ some (cstr "Zeca", n) :=
  ⟨by decide,
    ((talha_limitada (inserirTodos true vinteEDois)).2.2.2
      ((suspeitos (inserirTodos true vinteEDois)).take 20) [cstr "Zeca"] (cstr "Zeca")
      (by decide) (by decide) (by decide)).2⟩

/-! ## The history of a session -/

theorem em_nulo (c : List Lado) : Sala.nulo.em c = .nulo := by
  cases c <;> rfl

theorem suspeitoEm_limparPista (m : Sala) (c c2 : List Lado) :
    (m.limparPista c).suspeitoEm c2 = m.suspeitoEm c2 := by
  induction c generalizing m c2 with
  | nil =>
    cases m with
    | nulo => rfl
    | sala n e0 d0 p s0 =>
      cases c2 with
      | nil => rfl
      | cons l2 c2 => cases l2 <;> rfl
  | cons l c ih =>
    cases m with
    | nulo => rfl
    | sala n e0 d0 p s0 =>
      cases c2 with
      | nil => cases l <;> rfl
      | cons l2 c2 =>
        cases l <;> cases l2
        · exact ih e0 c2
        · rfl
        · rfl
        · exact ih d0 c2

theorem em_of_pistaEm (m : Sala) (c : List Lado) (h : m.pistaEm c ≠ []) :
    ∃ nome e d, m.em c = .sala nome e d (m.pistaEm c) (m.suspeitoEm c) := by
  unfold Sala.pistaEm Sala.suspeitoEm at *
  cases hm : m.em c with
  | nulo => rw [hm] at h; exact absurd rfl h
  | sala n e d p s => exact ⟨n, e, d, rfl⟩

theorem encontrarPista_eq (charSigned : Bool) (s : Sessao) :
    encontrarPista charSigned s =
      if strlen (s.mansao.pistaEm s.salaAtual) > 0 then
        { s with
          raizPistas := inserirPista s.raizPistas (s.mansao.pistaEm s.salaAtual)
          tabelaHash :=
            if strlen (s.mansao.suspeitoEm s.salaAtual) > 0 then
              inserirNaHash charSigned s.tabelaHash (s.mansao.pistaEm s.salaAtual)
                (s.mansao.suspeitoEm s.salaAtual)
            else s.tabelaHash
          mansao := s.mansao.limparPista s.salaAtual }
      else s := by
  unfold encontrarPista Sala.pistaEm Sala.suspeitoEm
  cases hm : s.mansao.em s.salaAtual with
  | nulo => simp [strlen]
  | sala n e d p q => rfl

theorem iteracao_coleta (charSigned : Bool) (s : Sessao) :
    (iteracao charSigned s).mansao = (coletaEm s).foldl Sala.limparPista s.mansao ∧
    (iteracao charSigned s).raizPistas =
      ((coletaEm s).map s.mansao.pistaEm).foldl inserirPista s.raizPistas ∧
    (iteracao charSigned s).tabelaHash =
      (paresDe s.mansao (coletaEm s)).foldl
        (fun t par => inserirNaHash charSigned t par.1 par.2) s.tabelaHash := by
  by_cases hfim : s.encerrada = true
  · have hc : coletaEm s = [] := by simp [coletaEm, hfim]
    rw [hc]
    unfold iteracao
    rw [if_pos hfim]
    exact ⟨rfl, rfl, rfl⟩
  · have hf : s.encerrada = false := by simpa using hfim
    obtain ⟨n1, n2, n3⟩ := navegar_campos (encontrarPista charSigned s)
    have hit : iteracao charSigned s = navegar (encontrarPista charSigned s) := by
      unfold iteracao
      rw [if_neg hfim]
    rw [hit, n1, n2, n3, encontrarPista_eq]
    by_cases hp : strlen (s.mansao.pistaEm s.salaAtual) > 0
    · have hc : coletaEm s = [s.salaAtual] := by
        unfold coletaEm
        rw [if_pos ⟨hf, hp⟩]
      rw [hc, if_pos hp]
      refine ⟨rfl, rfl, ?_⟩
      by_cases hq : strlen (s.mansao.suspeitoEm s.salaAtual) > 0
      · have hpar : paresDe s.mansao [s.salaAtual] =
            [(s.mansao.pistaEm s.salaAtual, s.mansao.suspeitoEm s.salaAtual)] := by
          simp [paresDe, parEm, hq]
        rw [hpar]
        simp only [if_pos hq, List.foldl_cons, List.foldl_nil]
      · have hpar : paresDe s.mansao [s.salaAtual] = [] := by
          simp [paresDe, parEm, hq]
        rw [hpar]
        simp only [if_neg hq, List.foldl_nil]
    · have hc : coletaEm s = [] := by
        unfold coletaEm
        rw [if_neg (fun h => hp h.2)]
      rw [hc, if_neg hp]
      exact ⟨rfl, rfl, rfl⟩

theorem coletaEm_cases (s : Sessao) :
    coletaEm s = [] ∨ (coletaEm s = [s.salaAtual] ∧ s.mansao.pistaEm s.salaAtual ≠ []) := by
  unfold coletaEm
  split_ifs with h
  · exact Or.inr ⟨rfl, List.length_pos.1 h.2⟩
  · exact Or.inl rfl

theorem iteracao_pistaEm_outra (charSigned : Bool) (s : Sessao) (c : List Lado)
    (hc : c ∉ coletaEm s) :
    (iteracao charSigned s).mansao.pistaEm c = s.mansao.pistaEm c ∧
    (iteracao charSigned s).mansao.suspeitoEm c = s.mansao.suspeitoEm c := by
  rw [(iteracao_coleta charSigned s).1]
  rcases coletaEm_cases s with h | ⟨h, _⟩
  · rw [h]; exact ⟨rfl, rfl⟩
  · rw [h] at hc ⊢
    simp only [List.foldl_cons, List.foldl_nil]
    exact ⟨pistaEm_limparPista_ne _ _ _ (by simpa using hc), suspeitoEm_limparPista _ _ _⟩

theorem iteracao_suspeitoEm (charSigned : Bool) (s : Sessao) (c : List Lado) :
    (iteracao charSigned s).mansao.suspeitoEm c = s.mansao.suspeitoEm c := by
  rw [(iteracao_coleta charSigned s).1]
  rcases coletaEm_cases s with h | ⟨h, _⟩
  · rw [h]; rfl
  · rw [h]
    exact suspeitoEm_limparPista _ _ _

theorem historico_pistaEm (charSigned : Bool) (n : Nat) (s : Sessao) :
    ∀ c ∈ historico charSigned n s, s.mansao.pistaEm c ≠ [] := by
  induction n generalizing s with
  | zero => intro c hc; simp [historico] at hc
  | succ n ih =>
    intro c hc
    simp only [historico, List.mem_append] at hc
    rcases hc with hc | hc
    · rcases coletaEm_cases s with h | ⟨h, hp⟩
      · rw [h] at hc; simp at hc
      · rw [h] at hc
        rw [List.mem_singleton.1 hc]; exact hp
    · intro h0
      exact ih _ c hc (iteracao_pistaEm_vazia charSigned s c h0)

theorem historico_disjunto (charSigned : Bool) (n : Nat) (s : Sessao) :
    ∀ c ∈ historico charSigned n (iteracao charSigned s), c ∉ coletaEm s := by
  intro c hc hcs
  have h1 := historico_pistaEm charSigned n _ c hc
  rcases coletaEm_cases s with h | ⟨h, _⟩
  · rw [h] at hcs; simp at hcs
  · rw [h] at hcs
    have hcc : c = s.salaAtual := List.mem_singleton.1 hcs
    apply h1
    rw [(iteracao_coleta charSigned s).1, h, hcc]
    exact pistaEm_limparPista_self _ _

theorem historico_nodup (charSigned : Bool) (n : Nat) (s : Sessao) :
    (historico charSigned n s).Nodup := by
  induction n generalizing s with
  | zero => simp [historico]
  | succ n ih =>
    simp only [historico]
    rw [List.nodup_append]
    refine ⟨?_, ih _, ?_⟩
    · rcases coletaEm_cases s with h | ⟨h, _⟩ <;> rw [h] <;> simp
    · intro a ha hb
      exact historico_disjunto charSigned n s a hb ha

theorem parEm_iteracao (charSigned : Bool) (n : Nat) (s : Sessao) :
    ∀ c ∈ historico charSigned n (iteracao charSigned s),
      parEm (iteracao charSigned s).mansao c = parEm s.mansao c := by
  intro c hc
  obtain ⟨h1, h2⟩ := iteracao_pistaEm_outra charSigned s c (historico_disjunto charSigned n s c hc)
  simp only [parEm, h1, h2]

theorem iterar_historico (charSigned : Bool) (n : Nat) (s : Sessao) :
    (iterar charSigned n s).raizPistas =
      ((historico charSigned n s).map s.mansao.pistaEm).foldl inserirPista s.raizPistas ∧
    (iterar charSigned n s).tabelaHash =
      (paresDe s.mansao (historico charSigned n s)).foldl
        (fun t par => inserirNaHash charSigned t par.1 par.2) s.tabelaHash := by
  induction n generalizing s with
  | zero => exact ⟨rfl, rfl⟩
  | succ n ih =>
    obtain ⟨i1, i2⟩ := ih (iteracao charSigned s)
    obtain ⟨_, c2, c3⟩ := iteracao_coleta charSigned s
    have hmap : (historico charSigned n (iteracao charSigned s)).map
        (parEm (iteracao charSigned s).mansao) =
        (historico charSigned n (iteracao charSigned s)).map (parEm s.mansao) :=
      List.map_congr_left (parEm_iteracao charSigned n s)
    have hmap1 : (historico charSigned n (iteracao charSigned s)).map
        (iteracao charSigned s).mansao.pistaEm =
        (historico charSigned n (iteracao charSigned s)).map s.mansao.pistaEm :=
      List.map_congr_left (fun c hc => congrArg Prod.fst (parEm_iteracao charSigned n s c hc))
    constructor
    · rw [iterar, i1, hmap1, c2, historico, List.map_append, List.foldl_append]
    · rw [iterar, i2, c3, historico]
      simp only [paresDe, hmap, List.map_append, List.filter_append, List.foldl_append]

theorem historico_visitada (charSigned : Bool) (n : Nat) (s : Sessao) :
    ∀ c ∈ historico charSigned n s, ∃ k, k < n ∧ (iterar charSigned k s).salaAtual = c := by
  induction n generalizing s with
  | zero => intro c hc; simp [historico] at hc
  | succ n ih =>
    intro c hc
    simp only [historico, List.mem_append] at hc
    rcases hc with hc | hc
    · rcases coletaEm_cases s with h | ⟨h, _⟩
      · rw [h] at hc; simp at hc
      · rw [h] at hc
        exact ⟨0, Nat.succ_pos n, (List.mem_singleton.1 hc).symm⟩
    · obtain ⟨k, hk, hkc⟩ := ih _ c hc
      exact ⟨k + 1, Nat.succ_lt_succ hk, hkc⟩

theorem historico_add (charSigned : Bool) (m n : Nat) (s : Sessao) :
    historico charSigned (m + n) s =
      historico charSigned m s ++ historico charSigned n (iterar charSigned m s) := by
  induction m generalizing s with
  | zero => simp [historico, iterar]
  | succ m ih => rw [Nat.succ_add, historico, ih, historico, iterar, List.append_assoc]

theorem historico_prefixo (charSigned : Bool) (n : Nat) (s : Sessao) (X Y : List (List Lado))
    (h : historico charSigned n s = X ++ Y) : ∃ k, k ≤ n ∧ historico charSigned k s = X := by
  induction n generalizing s X with
  | zero =>
    simp only [historico] at h
    have : X = [] := (List.append_eq_nil.1 h.symm).1
    exact ⟨0, Nat.le_refl 0, by rw [this]; rfl⟩
  | succ n ih =>
    cases X with
    | nil => exact ⟨0, Nat.zero_le _, rfl⟩
    | cons x X =>
      simp only [historico] at h
      rcases coletaEm_cases s with h0 | ⟨h0, _⟩
      · rw [h0, List.nil_append] at h
        obtain ⟨k, hk, hX⟩ := ih _ _ h
        exact ⟨k + 1, Nat.succ_le_succ hk, by simp only [historico, h0, List.nil_append, hX]⟩
      · rw [h0] at h
        simp only [List.singleton_append, List.cons_append, List.cons.injEq] at h
        obtain ⟨k, hk, hX⟩ := ih _ _ h.2
        exact ⟨k + 1, Nat.succ_le_succ hk,
          by simp only [historico, h0, List.singleton_append, hX, h.1]⟩

theorem entradas_inserirTodos_perm (charSigned : Bool) (pares : List (CStr × CStr)) :
    List.Perm (entradas (inserirTodos charSigned pares))
      (pares.map fun par => (⟨par.1, par.2⟩ : HashNode)) := by
  have h := entradas_foldl_perm charSigned pares inicializarTabelaHash
    (by simp [inicializarTabelaHash])
  rw [entradas_inicializarTabelaHash, List.append_nil] at h
  exact h

theorem sessaoInicial_historico (charSigned : Bool) (m : Sala) (entrada : List Char) (n : Nat) :
    (iterar charSigned n (sessaoInicial m .nulo inicializarTabelaHash entrada)).raizPistas =
      inserirPistas ((historico charSigned n
        (sessaoInicial m .nulo inicializarTabelaHash entrada)).map m.pistaEm) ∧
    (iterar charSigned n (sessaoInicial m .nulo inicializarTabelaHash entrada)).tabelaHash =
      inserirTodos charSigned (paresDe m (historico charSigned n
        (sessaoInicial m .nulo inicializarTabelaHash entrada))) :=
  iterar_historico charSigned n (sessaoInicial m .nulo inicializarTabelaHash entrada)

theorem mem_paresDe (m : Sala) (h : List (List Lado)) (par : CStr × CStr)
    (hp : par ∈ paresDe m h) : ∃ c ∈ h, par = parEm m c := by
  unfold paresDe at hp
  obtain ⟨c, hc, rfl⟩ := List.mem_map.1 (List.mem_filter.1 hp).1
  exact ⟨c, hc, rfl⟩

/-- C20: in a session started with an empty clue tree and a freshly initialised ledger, on any
mansion and any input, after any number of iterations every entry of the ledger has its clue in
the clue tree, and its clue and suspect are the ones a room of the mansion was built with, a
room that was the current room at an earlier iteration. -/
theorem livro_na_arvore (charSigned : Bool) (m : Sala) (entrada : List Char) (n : Nat)
    (e : HashNode)
    (he : e ∈ entradas
      (iterar charSigned n (sessaoInicial m .nulo inicializarTabelaHash entrada)).tabelaHash) :
    e.pista ∈ mostrarPistasEmOrdem
      (iterar charSigned n (sessaoInicial m .nulo inicializarTabelaHash entrada)).raizPistas ∧
    ∃ (c : List Lado) (nome : CStr) (esq dir : Sala),
      m.em c = .sala nome esq dir e.pista e.suspeito ∧
      ∃ k, k < n ∧
        (iterar charSigned k (sessaoInicial m .nulo inicializarTabelaHash entrada)).salaAtual =
          c := by
  obtain ⟨h1, h2⟩ := sessaoInicial_historico charSigned m entrada n
  rw [h2] at he
  have he2 := (entradas_inserirTodos_perm charSigned _).subset he
  obtain ⟨par, hpar, rfl⟩ := List.mem_map.1 he2
  obtain ⟨c, hc, rfl⟩ := mem_paresDe m _ par hpar
  have hne : m.pistaEm c ≠ [] :=
    historico_pistaEm charSigned n (sessaoInicial m .nulo inicializarTabelaHash entrada) c hc
  obtain ⟨nome, esq, dir, hem⟩ := em_of_pistaEm m c hne
  refine ⟨?_, c, nome, esq, dir, hem, historico_visitada charSigned n _ c hc⟩
  rw [h1, mem_inserirPistas]
  exact List.mem_map_of_mem _ hc

/-- Witness for C20: the entry made at `Biblioteca` in the mansion of `main`. -/
theorem livro_na_arvore_witness :
    cstr "Carta Amassada" ∈ mostrarPistasEmOrdem
      (iterar true 3 (sessaoInicial mansaoPrincipal .nulo inicializarTabelaHash
        ['e', 'e', 'e', 's'])).raizPistas :=
  (livro_na_arvore true mansaoPrincipal ['e', 'e', 'e', 's'] 3
    ⟨cstr "Carta Amassada", cstr "Mordomo"⟩ (by decide)).1

/-! ## The verdict on the mansion of `main` -/

theorem em_principal_fundo (l1 l2 l3 l4 : Lado) (c : List Lado) :
    mansaoPrincipal.em (l1 :: l2 :: l3 :: l4 :: c) = .nulo := by
  cases l1 <;> cases l2 <;> cases l3 <;> cases l4 <;> simp [mansaoPrincipal, Sala.em, em_nulo]

theorem pistaEm_principal (c : List Lado) (h : mansaoPrincipal.pistaEm c ≠ []) :
    c ∈ seisCaminhos := by
  rcases c with _ | ⟨l1, _ | ⟨l2, _ | ⟨l3, _ | ⟨l4, c⟩⟩⟩⟩
  · exact absurd (by decide) h
  · cases l1
    · exact absurd (by decide) h
    · decide
  · cases l1 <;> cases l2 <;> decide
  · cases l1 <;> cases l2 <;> cases l3 <;> first | decide | exact absurd (by decide) h
  · exact absurd (by simp [Sala.pistaEm, em_principal_fundo]) h

theorem culpado_primeiro (t : Tabela) (e : HashNode) (resto : List HashNode) (N : Nat)
    (ht : entradas t = e :: resto) (hd : (suspeitos t).dedup.length ≤ 20)
    (hN : citacoes t e.suspeito = N) (hmax : ∀ x, citacoes t x ≤ N) :
    encontrarCulpado t = some (e.suspeito, N) := by
  obtain ⟨s, n, hres, hn, _, hrest⟩ := encontrarCulpado_spec t (by rw [ht]; simp)
  obtain ⟨h1, h2⟩ := hrest hd
  have hnN : n = N := Nat.le_antisymm (hn ▸ hmax s) (hN ▸ h1 e.suspeito)
  have hs : s = e.suspeito := by
    by_contra hne
    obtain ⟨l1, l2, hl, _, hnot⟩ := h2 e.suspeito (fun h => hne h.symm) (hN.trans hnN.symm)
    have hL : suspeitos t = e.suspeito :: resto.map HashNode.suspeito := by
      simp [suspeitos, ht]
    rw [hL] at hl
    cases l1 with
    | nil =>
      simp only [List.nil_append, List.cons.injEq] at hl
      exact hne hl.1.symm
    | cons y l1 =>
      simp only [List.cons_append, List.cons.injEq] at hl
      exact hnot (hl.1 ▸ List.mem_cons_self _ _)
  rw [hres, hs, hnN]

theorem eq_singleton_of_mem {α : Type} {l : List α} {a : α} (hl : l.length = 1) (ha : a ∈ l) :
    l = [a] := by
  obtain ⟨x, rfl⟩ := List.length_eq_one.1 hl
  rw [List.mem_singleton.1 ha]

theorem citacoes_seis (charSigned : Bool) (P : List (CStr × CStr)) (hP : List.Perm P seisPares)
    (x : CStr) :
    citacoes (inserirTodos charSigned P) x =
      (seisPares.map Prod.snd).countP (fun y => y = x) := by
  rw [citacoes_eq]
  exact ((suspeitos_inserirTodos_perm charSigned P).trans (hP.map Prod.snd)).countP_eq _

theorem citacoes_seis_le (x : CStr) : (seisPares.map Prod.snd).countP (fun y => y = x) ≤ 2 := by
  by_cases h1 : x = cstr "Cozinheiro"
  · subst h1; decide
  · by_cases h2 : x = cstr "Mordomo"
    · subst h2; decide
    · by_cases h3 : x = cstr "Jardineiro"
      · subst h3; decide
      · have h0 : (seisPares.map Prod.snd).countP (fun y => decide (y = x)) = 0 := by
          rw [List.countP_eq_zero]
          intro a ha
          have ha2 : a = cstr "Cozinheiro" ∨ a = cstr "Mordomo" ∨ a = cstr "Jardineiro" := by
            revert a
            decide
          simp only [decide_eq_true_eq]
          rcases ha2 with rfl | rfl | rfl
          · exact fun e => h1 e.symm
          · exact fun e => h2 e.symm
          · exact fun e => h3 e.symm
        omega

theorem culpado_seis (charSigned : Bool) (P X Y : List (CStr × CStr)) (a b : CStr × CStr)
    (hP : List.Perm P seisPares) (hXY : P = X ++ Y) (ha : a ∈ X) (hb : b ∈ Y)
    (hab : (a = parCorda ∧ b = parFaca) ∨ (a = parFaca ∧ b = parCorda)) :
    encontrarCulpado (inserirTodos charSigned P) = some (b.2, 2) := by
  have h2 : ∀ par, par = parCorda ∨ par = parFaca → funcaoHash charSigned par.1 = 2 := by
    intro par hpar
    rcases hpar with rfl | rfl <;> cases charSigned <;> decide
  have hfa : funcaoHash charSigned a.1 = 2 := by
    rcases hab with ⟨h, _⟩ | ⟨h, _⟩
    · exact h2 a (Or.inl h)
    · exact h2 a (Or.inr h)
  have hfb : funcaoHash charSigned b.1 = 2 := by
    rcases hab with ⟨_, h⟩ | ⟨_, h⟩
    · exact h2 b (Or.inr h)
    · exact h2 b (Or.inl h)
  have hfil : ∀ i, List.Perm (P.filter fun par => funcaoHash charSigned par.1 = i)
      (seisPares.filter fun par => funcaoHash charSigned par.1 = i) := fun i => hP.filter _
  have hF2 : seisPares.filter (fun par => funcaoHash charSigned par.1 = 2) =
      [parFaca, parCorda] := by
    cases charSigned <;> decide
  have hF0 : seisPares.filter (fun par => funcaoHash charSigned par.1 = 0) = [] := by
    cases charSigned <;> decide
  have hF1 : seisPares.filter (fun par => funcaoHash charSigned par.1 = 1) = [] := by
    cases charSigned <;> decide
  have hlen : (X.filter fun par => funcaoHash charSigned par.1 = 2).length +
      (Y.filter fun par => funcaoHash charSigned par.1 = 2).length = 2 := by
    have := (hfil 2).length_eq
    rw [hF2, hXY, List.filter_append, List.length_append] at this
    simpa using this
  have haX : a ∈ X.filter fun par => funcaoHash charSigned par.1 = 2 :=
    List.mem_filter.2 ⟨ha, by simpa using hfa⟩
  have hbY : b ∈ Y.filter fun par => funcaoHash charSigned par.1 = 2 :=
    List.mem_filter.2 ⟨hb, by simpa using hfb⟩
  have hXl := List.length_pos_of_mem haX
  have hYl := List.length_pos_of_mem hbY
  have hX1 := eq_singleton_of_mem (by omega) haX
  have hY1 := eq_singleton_of_mem (by omega) hbY
  have hb2 : balde (inserirTodos charSigned P) 2 = [⟨b.1, b.2⟩, ⟨a.1, a.2⟩] := by
    rw [balde_inserirTodos, hXY, List.filter_append, hX1, hY1]
    rfl
  have hb0 : balde (inserirTodos charSigned P) 0 = [] := by
    rw [balde_inserirTodos]
    have := hfil 0
    rw [hF0] at this
    rw [this.eq_nil]
    rfl
  have hb1 : balde (inserirTodos charSigned P) 1 = [] := by
    rw [balde_inserirTodos]
    have := hfil 1
    rw [hF1] at this
    rw [this.eq_nil]
    rfl
  have hent : entradas (inserirTodos charSigned P) =
      ⟨b.1, b.2⟩ :: (⟨a.1, a.2⟩ ::
        (List.range' 3 7).flatMap (balde (inserirTodos charSigned P))) := by
    have hr : List.range TAM_HASH = 0 :: 1 :: 2 :: List.range' 3 7 := by decide
    rw [entradas, hr]
    simp only [List.flatMap_cons, hb0, hb1, hb2, List.nil_append, List.cons_append]
  have hd : (suspeitos (inserirTodos charSigned P)).dedup.length ≤ 20 := by
    have hperm := (suspeitos_inserirTodos_perm charSigned P).trans (hP.map Prod.snd)
    have h1 := (List.dedup_sublist (suspeitos (inserirTodos charSigned P))).length_le
    have h3 := hperm.length_eq
    have h4 : (seisPares.map Prod.snd).length = 6 := by decide
    omega
  refine culpado_primeiro _ ⟨b.1, b.2⟩ _ 2 hent hd ?_ ?_
  · rw [citacoes_seis charSigned P hP]
    rcases hab with ⟨_, rfl⟩ | ⟨_, rfl⟩ <;> decide
  · intro x
    rw [citacoes_seis charSigned P hP]
    exact citacoes_seis_le x

theorem caderno_mem (charSigned : Bool) (entrada : List Char) (k : Nat) (x : CStr) :
    x ∈ caderno charSigned entrada k ↔
      x ∈ (historico charSigned k (sessaoPrincipal entrada)).map mansaoPrincipal.pistaEm := by
  unfold caderno sessaoPrincipal
  rw [(sessaoInicial_historico charSigned mansaoPrincipal entrada k).1, mem_inserirPistas]

theorem historico_principal (charSigned : Bool) (entrada : List Char) (k : Nat) :
    ∀ c ∈ historico charSigned k (sessaoPrincipal entrada), c ∈ seisCaminhos :=
  fun c hc => pistaEm_principal c
    (historico_pistaEm charSigned k (sessaoPrincipal entrada) c hc)

theorem pistaEm_principal_inj :
    ∀ c1 ∈ seisCaminhos, ∀ c2 ∈ seisCaminhos,
      mansaoPrincipal.pistaEm c1 = mansaoPrincipal.pistaEm c2 → c1 = c2 := by
  decide

theorem historico_de_caderno (charSigned : Bool) (entrada : List Char) (k : Nat)
    (c : List Lado) (hc : c ∈ seisCaminhos) :
    mansaoPrincipal.pistaEm c ∈ caderno charSigned entrada k ↔
      c ∈ historico charSigned k (sessaoPrincipal entrada) := by
  rw [caderno_mem]
  constructor
  · intro h
    obtain ⟨c2, hc2, heq⟩ := List.mem_map.1 h
    have := pistaEm_principal_inj c2 (historico_principal charSigned entrada k c2 hc2) c hc heq
    exact this ▸ hc2
  · intro h
    exact List.mem_map_of_mem _ h

theorem historico_mono (charSigned : Bool) (k n : Nat) (s : Sessao) (h : k ≤ n) :
    ∃ R, historico charSigned n s = historico charSigned k s ++ R := by
  obtain ⟨j, rfl⟩ := Nat.exists_eq_add_of_le h
  exact ⟨_, historico_add charSigned k j s⟩

theorem paresDe_append (m : Sala) (X Y : List (List Lado)) :
    paresDe m (X ++ Y) = paresDe m X ++ paresDe m Y := by
  simp [paresDe]

theorem paresDe_perm (m : Sala) {X Y : List (List Lado)} (h : List.Perm X Y) :
    List.Perm (paresDe m X) (paresDe m Y) :=
  (h.map _).filter _

theorem mem_paresDe_principal (X : List (List Lado)) (c : List Lado) (hc : c ∈ X)
    (hs : c ∈ seisCaminhos) : parEm mansaoPrincipal c ∈ paresDe mansaoPrincipal X := by
  have h6 : ∀ c2 ∈ seisCaminhos, strlen (parEm mansaoPrincipal c2).2 > 0 := by decide
  unfold paresDe
  exact List.mem_filter.2 ⟨List.mem_map_of_mem _ hc, by simpa using h6 c hs⟩

/-- The verdict of the session of `main` once the six clues are collected, by the order in which
`Sala de Musica` and `Sala de Jantar` come in the history. -/
theorem veredito_historico (charSigned : Bool) (entrada : List Char) (n : Nat)
    (X Y : List (List Lado)) (a b : List Lado)
    (hperm : List.Perm (historico charSigned n (sessaoPrincipal entrada)) seisCaminhos)
    (hXY : historico charSigned n (sessaoPrincipal entrada) = X ++ Y) (ha : a ∈ X) (hb : b ∈ Y)
    (hab : (a = [.direita] ∧ b = [.esquerda, .direita, .esquerda]) ∨
      (a = [.esquerda, .direita, .esquerda] ∧ b = [.direita])) :
    encontrarCulpado (iterar charSigned n (sessaoPrincipal entrada)).tabelaHash =
      some (mansaoPrincipal.suspeitoEm b, 2) := by
  have hT : (iterar charSigned n (sessaoPrincipal entrada)).tabelaHash =
      inserirTodos charSigned (paresDe mansaoPrincipal
        (historico charSigned n (sessaoPrincipal entrada))) :=
    (sessaoInicial_historico charSigned mansaoPrincipal entrada n).2
  have hP : List.Perm (paresDe mansaoPrincipal
      (historico charSigned n (sessaoPrincipal entrada))) seisPares := by
    have h := paresDe_perm mansaoPrincipal hperm
    have h6 : paresDe mansaoPrincipal seisCaminhos = seisPares := by decide
    rw [h6] at h
    exact h
  have has : a ∈ seisCaminhos := by
    rcases hab with ⟨rfl, _⟩ | ⟨rfl, _⟩ <;> decide
  have hbs : b ∈ seisCaminhos := by
    rcases hab with ⟨_, rfl⟩ | ⟨_, rfl⟩ <;> decide
  rw [hT]
  have := culpado_seis charSigned _ (paresDe mansaoPrincipal X) (paresDe mansaoPrincipal Y)
    (parEm mansaoPrincipal a) (parEm mansaoPrincipal b) hP
    (by rw [hXY, paresDe_append]) (mem_paresDe_principal X a ha has)
    (mem_paresDe_principal Y b hb hbs)
    (by rcases hab with ⟨rfl, rfl⟩ | ⟨rfl, rfl⟩ <;> decide)
  exact this

theorem historico_completo (charSigned : Bool) (entrada : List Char) (n : Nat)
    (hseis : ∀ p ∈ seisPistas, p ∈ caderno charSigned entrada n) :
    List.Perm (historico charSigned n (sessaoPrincipal entrada)) seisCaminhos := by
  refine (List.perm_ext_iff_of_nodup (historico_nodup charSigned n _) (by decide)).2 ?_
  intro c
  constructor
  · exact historico_principal charSigned entrada n c
  · intro hc
    have h6 : ∀ c2 ∈ seisCaminhos, mansaoPrincipal.pistaEm c2 ∈ seisPistas := by decide
    exact (historico_de_caderno charSigned entrada n c hc).1 (hseis _ (h6 c hc))

theorem veredito_casos (charSigned : Bool) (entrada : List Char) (n : Nat)
    (hseis : ∀ p ∈ seisPistas, p ∈ caderno charSigned entrada n) :
    ((∃ k, cstr "Corda de Piano Arrebentada" ∈ caderno charSigned entrada k ∧
        cstr "Faca de Prata" ∉ caderno charSigned entrada k) →
      encontrarCulpado (iterar charSigned n (sessaoPrincipal entrada)).tabelaHash =
        some (cstr "Cozinheiro", 2)) ∧
    ((¬ ∃ k, cstr "Corda de Piano Arrebentada" ∈ caderno charSigned entrada k ∧
        cstr "Faca de Prata" ∉ caderno charSigned entrada k) →
      encontrarCulpado (iterar charSigned n (sessaoPrincipal entrada)).tabelaHash =
        some (cstr "Mordomo", 2)) := by
  have hperm := historico_completo charSigned entrada n hseis
  have hmus : ([.direita] : List Lado) ∈ seisCaminhos := by decide
  have hjan : ([.esquerda, .direita, .esquerda] : List Lado) ∈ seisCaminhos := by decide
  have hcorda : ∀ k, cstr "Corda de Piano Arrebentada" ∈ caderno charSigned entrada k ↔
      [.direita] ∈ historico charSigned k (sessaoPrincipal entrada) :=
    fun k => historico_de_caderno charSigned entrada k [.direita] hmus
  have hfaca : ∀ k, cstr "Faca de Prata" ∈ caderno charSigned entrada k ↔
      [.esquerda, .direita, .esquerda] ∈ historico charSigned k (sessaoPrincipal entrada) :=
    fun k => historico_de_caderno charSigned entrada k [.esquerda, .direita, .esquerda] hjan
  have hmusn : ([.direita] : List Lado) ∈ historico charSigned n (sessaoPrincipal entrada) :=
    hperm.mem_iff.2 hmus
  have hjann : ([.esquerda, .direita, .esquerda] : List Lado) ∈
      historico charSigned n (sessaoPrincipal entrada) := hperm.mem_iff.2 hjan
  constructor
  · rintro ⟨k, hk1, hk2⟩
    rw [hcorda] at hk1
    rw [hfaca] at hk2
    have hkn : k ≤ n := by
      by_contra hlt
      obtain ⟨R, hR⟩ := historico_mono charSigned n k (sessaoPrincipal entrada) (by omega)
      exact hk2 (hR ▸ List.mem_append_left _ hjann)
    obtain ⟨R, hR⟩ := historico_mono charSigned k n (sessaoPrincipal entrada) hkn
    have hjR : ([.esquerda, .direita, .esquerda] : List Lado) ∈ R := by
      rw [hR] at hjann
      rcases List.mem_append.1 hjann with h | h
      · exact absurd h hk2
      · exact h
    exact veredito_historico charSigned entrada n _ R _ _ hperm hR hk1 hjR
      (Or.inl ⟨rfl, rfl⟩)
  · intro hnot
    obtain ⟨X, Y, hXY⟩ := List.append_of_mem hmusn
    by_cases hjX : ([.esquerda, .direita, .esquerda] : List Lado) ∈ X
    · exact veredito_historico charSigned entrada n X ([.direita] :: Y) _ _ hperm hXY hjX
        (List.mem_cons_self _ _) (Or.inr ⟨rfl, rfl⟩)
    · exfalso
      have hXY2 : historico charSigned n (sessaoPrincipal entrada) = (X ++ [[.direita]]) ++ Y := by
        rw [hXY]; simp
      obtain ⟨k, _, hk⟩ := historico_prefixo charSigned n _ _ _ hXY2
      apply hnot
      refine ⟨k, (hcorda k).2 (by rw [hk]; simp), ?_⟩
      rw [hfaca, hk]
      intro h
      rcases List.mem_append.1 h with h | h
      · exact hjX h
      · simp at h

theorem baldes_seis (charSigned : Bool) (P : List (CStr × CStr))
    (hP : List.Perm P seisPares) :
    balde (inserirTodos charSigned P) 0 = [] ∧ balde (inserirTodos charSigned P) 1 = [] := by
  have hF0 : seisPares.filter (fun par => funcaoHash charSigned par.1 = 0) = [] := by
    cases charSigned <;> decide
  have hF1 : seisPares.filter (fun par => funcaoHash charSigned par.1 = 1) = [] := by
    cases charSigned <;> decide
  constructor
  · have h : List.Perm (P.filter fun par => funcaoHash charSigned par.1 = 0)
        (seisPares.filter fun par => funcaoHash charSigned par.1 = 0) := hP.filter _
    rw [hF0] at h
    rw [balde_inserirTodos, h.eq_nil]
    rfl
  · have h : List.Perm (P.filter fun par => funcaoHash charSigned par.1 = 1)
        (seisPares.filter fun par => funcaoHash charSigned par.1 = 1) := hP.filter _
    rw [hF1] at h
    rw [balde_inserirTodos, h.eq_nil]
    rfl

/-- C18: in the session of `main`, once the six clues are in the clue tree, `Mordomo`,
`Cozinheiro` and `Jardineiro` have two entries each and nobody has more. `Faca de Prata` and
`Corda de Piano Arrebentada` both go to slot 2, and slots 0 and 1 are empty. The verdict is
`Cozinheiro` with count 2 if at some iteration `Corda de Piano Arrebentada` was in the clue tree
and `Faca de Prata` was not yet, and `Mordomo` with count 2 otherwise; it is never `Jardineiro`.
The inputs `entradaCordaAntes` and `entradaFacaAntes` end with the same six clues and with
different verdicts. -/
theorem veredito_seis_pistas (charSigned : Bool) (entrada : List Char) (n : Nat)
    (hseis : ∀ p ∈ seisPistas, p ∈ caderno charSigned entrada n) :
    (citacoes (iterar charSigned n (sessaoPrincipal entrada)).tabelaHash (cstr "Mordomo") = 2 ∧
      citacoes (iterar charSigned n (sessaoPrincipal entrada)).tabelaHash (cstr "Cozinheiro") = 2 ∧
      citacoes (iterar charSigned n (sessaoPrincipal entrada)).tabelaHash (cstr "Jardineiro") = 2 ∧
      ∀ x, citacoes (iterar charSigned n (sessaoPrincipal entrada)).tabelaHash x ≤ 2) ∧
    (funcaoHash charSigned (cstr "Faca de Prata") = 2 ∧
      funcaoHash charSigned (cstr "Corda de Piano Arrebentada") = 2 ∧
      balde (iterar charSigned n (sessaoPrincipal entrada)).tabelaHash 0 = [] ∧
      balde (iterar charSigned n (sessaoPrincipal entrada)).tabelaHash 1 = []) ∧
    ((∃ k, cstr "Corda de Piano Arrebentada" ∈ caderno charSigned entrada k ∧
        cstr "Faca de Prata" ∉ caderno charSigned entrada k) →
      encontrarCulpado (iterar charSigned n (sessaoPrincipal entrada)).tabelaHash =
        some (cstr "Cozinheiro", 2)) ∧
    ((¬ ∃ k, cstr "Corda de Piano Arrebentada" ∈ caderno charSigned entrada k ∧
        cstr "Faca de Prata" ∉ caderno charSigned entrada k) →
      encontrarCulpado (iterar charSigned n (sessaoPrincipal entrada)).tabelaHash =
        some (cstr "Mordomo", 2)) ∧
    (∀ k, encontrarCulpado (iterar charSigned n (sessaoPrincipal entrada)).tabelaHash ≠
      some (cstr "Jardineiro", k)) ∧
    (caderno charSigned entradaCordaAntes 14 = caderno charSigned entradaFacaAntes 14 ∧
      (∀ p ∈ seisPistas, p ∈ caderno charSigned entradaCordaAntes 14) ∧
      encontrarCulpado (iterar charSigned 14 (sessaoPrincipal entradaCordaAntes)).tabelaHash =
        some (cstr "Cozinheiro", 2) ∧
      encontrarCulpado (iterar charSigned 14 (sessaoPrincipal entradaFacaAntes)).tabelaHash =
        some (cstr "Mordomo", 2)) := by
  have hperm := historico_completo charSigned entrada n hseis
  have hT : (iterar charSigned n (sessaoPrincipal entrada)).tabelaHash =
      inserirTodos charSigned (paresDe mansaoPrincipal
        (historico charSigned n (sessaoPrincipal entrada))) :=
    (sessaoInicial_historico charSigned mansaoPrincipal entrada n).2
  have hP : List.Perm (paresDe mansaoPrincipal
      (historico charSigned n (sessaoPrincipal entrada))) seisPares := by
    have h := paresDe_perm mansaoPrincipal hperm
    have h6 : paresDe mansaoPrincipal seisCaminhos = seisPares := by decide
    rw [h6] at h
    exact h
  obtain ⟨hA, hB⟩ := veredito_casos charSigned entrada n hseis
  refine ⟨?_, ?_, hA, hB, ?_, ?_⟩
  · rw [hT]
    refine ⟨?_, ?_, ?_, ?_⟩
    · rw [citacoes_seis charSigned _ hP]; decide
    · rw [citacoes_seis charSigned _ hP]; decide
    · rw [citacoes_seis charSigned _ hP]; decide
    · intro x
      rw [citacoes_seis charSigned _ hP]
      exact citacoes_seis_le x
  · rw [hT]
    obtain ⟨h0, h1⟩ := baldes_seis charSigned _ hP
    refine ⟨?_, ?_, h0, h1⟩
    · cases charSigned <;> decide
    · cases charSigned <;> decide
  · intro k hk
    by_cases h : ∃ k, cstr "Corda de Piano Arrebentada" ∈ caderno charSigned entrada k ∧
        cstr "Faca de Prata" ∉ caderno charSigned entrada k
    · rw [hA h] at hk
      have h1 : cstr "Cozinheiro" = cstr "Jardineiro" :=
        congrArg Prod.fst (Option.some.inj hk)
      exact absurd h1 (by decide)
    · rw [hB h] at hk
      have h1 : cstr "Mordomo" = cstr "Jardineiro" :=
        congrArg Prod.fst (Option.some.inj hk)
      exact absurd h1 (by decide)
  · cases charSigned <;> decide

/-- Witness for C18: the input `entradaCordaAntes`, where `Sala de Musica` is visited first. -/
theorem veredito_seis_pistas_witness :
    (∀ p ∈ seisPistas, p ∈ caderno true entradaCordaAntes 14) ∧
    encontrarCulpado (iterar true 14 (sessaoPrincipal entradaCordaAntes)).tabelaHash =
      some (cstr "Cozinheiro", 2) :=
  ⟨by decide, (veredito_seis_pistas true entradaCordaAntes 14 (by decide)).2.2.1
    ⟨2, by decide, by decide⟩⟩

end DetectiveQuest
